import Mathlib

/-!
Verification of the spherical-dyffusion rollout/corrector core.

Shallow embedding of the Python sources:
  * `src/evaluation/metrics.py` (weighted_mean, vertical_integral,
    surface_pressure_due_to_dry_air)
  * `src/ace_inference/core/aggregator/climate_data.py` (ClimateData view,
    natural_sort, alias resolution)
  * `src/ace_inference/core/corrector.py` (the three corrector stages)
  * `src/utilities/packer.py` (Packer)
  * `src/ace_inference/core/stepper.py` (run_on_batch)

Tensors over the horizontal grid are modelled as functions from a finite
index type `ι` (the flattened (lat, lon) plane) into `ℚ`; torch reductions
over `dim=(-2,-1)` become sums over all of `ι`.  Multi-level (stacked)
tensors are modelled with their trailing vertical axis as a `List ℚ`.
Machine floats are modelled by exact rationals, so every "to floating
tolerance" statement is proved as an exact equality of the rational-number
computation.
-/

deriving instance DecidableEq for Except

set_option maxRecDepth 4000

namespace SphericalDyffusion

/-- Python exception kinds that the embedded code can raise.  Each embedded
fallible function returns `Except PyErr _`; the constructor records the
exception class and the message (where the message matters to a claim). -/
inductive PyErr where
  | keyError : String → PyErr
  | valueError : String → PyErr
  | attributeError : String → PyErr
  | assertionError : String → PyErr
  | indexError : String → PyErr
  | runtimeError : String → PyErr
  deriving DecidableEq, Repr

/-- A tensor over the horizontal grid: one rational per grid cell. -/
abbrev Tensor (ι : Type) := ι → ℚ

/-- A named field mapping (Python `Dict[str, torch.Tensor]`), modelled as an
association list in dict insertion order with unique keys. -/
abbrev FieldMap (ι : Type) := List (String × Tensor ι)

/-- Dict key lookup: first entry with the given key. -/
def fmLookup {ι : Type} (m : FieldMap ι) (k : String) : Option (Tensor ι) :=
  match m with
  | [] => none
  | (k', v) :: rest => if k' = k then some v else fmLookup rest k

/-- `k in d.keys()`. -/
def fmContains {ι : Type} (m : FieldMap ι) (k : String) : Bool :=
  match m with
  | [] => false
  | (k', _) :: rest => if k' = k then true else fmContains rest k

/-- Python dict assignment `d[k] = v`: replace the value at an existing key
in place, else append the new key at the end. -/
def fmInsert {ι : Type} (m : FieldMap ι) (k : String) (v : Tensor ι) : FieldMap ι :=
  match m with
  | [] => [(k, v)]
  | (k', v') :: rest => if k' = k then (k, v) :: rest else (k', v') :: fmInsert rest k v

/-- The keys of the mapping, in insertion order. -/
def fmKeys {ι : Type} (m : FieldMap ι) : List String := m.map (·.1)

theorem fmLookup_fmInsert_self {ι : Type} (m : FieldMap ι) (k : String) (v : Tensor ι) :
    fmLookup (fmInsert m k v) k = some v := by
  induction m with
  | nil => simp [fmInsert, fmLookup]
  | cons p rest ih =>
    by_cases h : p.1 = k
    · simp [fmInsert, fmLookup, h]
    · simp [fmInsert, fmLookup, h, ih]

theorem fmLookup_fmInsert_ne {ι : Type} (m : FieldMap ι) (k k' : String) (v : Tensor ι)
    (h : k ≠ k') : fmLookup (fmInsert m k v) k' = fmLookup m k' := by
  induction m with
  | nil => simp [fmInsert, fmLookup, h]
  | cons p rest ih =>
    by_cases hp : p.1 = k
    · simp [fmInsert, fmLookup, hp, h]
    · simp only [fmInsert, hp, if_false, fmLookup]
      by_cases hp' : p.1 = k'
      · simp [hp']
      · simp [hp', ih]

theorem fmContains_iff_mem_keys {ι : Type} (m : FieldMap ι) (k : String) :
    fmContains m k = true ↔ k ∈ fmKeys m := by
  induction m with
  | nil => simp [fmContains, fmKeys]
  | cons p rest ih =>
    by_cases hp : p.1 = k
    · simp [fmContains, fmKeys, hp]
    · simp [fmContains, fmKeys, hp, ih, Ne.symm hp]

theorem fmContains_iff_lookup_isSome {ι : Type} (m : FieldMap ι) (k : String) :
    fmContains m k = true ↔ (fmLookup m k).isSome := by
  induction m with
  | nil => simp [fmContains, fmLookup]
  | cons p rest ih =>
    by_cases hp : p.1 = k
    · simp [fmContains, fmLookup, hp]
    · simp [fmContains, fmLookup, hp, ih]

theorem fmKeys_fmInsert {ι : Type} (m : FieldMap ι) (k : String) (v : Tensor ι)
    (hk : fmContains m k = true) : fmKeys (fmInsert m k v) = fmKeys m := by
  induction m with
  | nil => simp [fmContains] at hk
  | cons p rest ih =>
    by_cases hp : p.1 = k
    · simp [fmInsert, fmKeys, hp]
    · simp only [fmContains, hp, if_false] at hk
      simp [fmInsert, fmKeys, hp] at ih ⊢
      exact ih hk

theorem fmContains_fmInsert {ι : Type} (m : FieldMap ι) (k k' : String) (v : Tensor ι)
    (hk : fmContains m k = true) : fmContains (fmInsert m k v) k' = fmContains m k' := by
  rw [Bool.eq_iff_iff, fmContains_iff_mem_keys, fmContains_iff_mem_keys,
    fmKeys_fmInsert m k v hk]

/-! ## metrics (src/evaluation/metrics.py) -/

/-- `GRAVITY = 9.80665  # m/s^2` (src/evaluation/metrics.py line 12). -/
def GRAVITY : ℚ := 980665 / 100000

/-- `weighted_mean(tensor, weights, dim=(-2,-1))` (src/evaluation/metrics.py
lines 32-58), with `dim=(-2,-1)` reducing over the whole horizontal grid:
`(tensor * weights).sum(dim) / weights.expand(tensor.shape).sum(dim)`. -/
def weighted_mean {ι : Type} [Fintype ι] (tensor : Tensor ι) (weights : Tensor ι) : ℚ :=
  (∑ i, tensor i * weights i) / (∑ i, weights i)

/-- `torch.Tensor.diff()` along the last axis of a 1-D tensor:
consecutive differences. -/
def listDiff : List ℚ → List ℚ
  | a :: b :: rest => (b - a) :: listDiff (b :: rest)
  | _ => []

/-- `vertical_integral(integrand, surface_pressure, ak, bk)`
(src/evaluation/metrics.py lines 389-423), per grid column:
`pressure_thickness = ((ak + (surface_pressure.unsqueeze(-1) * bk))).diff(dim=-1)`
then `(1 / GRAVITY) * sum(pressure_thickness * integrand)` over the vertical
axis.  (The device check is an artifact of multi-device torch and has no
counterpart in this single-device model.) -/
def vertical_integral (integrand : List ℚ) (surface_pressure : ℚ) (ak bk : List ℚ) : ℚ :=
  let pressure_thickness := listDiff (List.zipWith (fun a b => a + surface_pressure * b) ak bk)
  (1 / GRAVITY) * (List.zipWith (· * ·) pressure_thickness integrand).sum

/-- `surface_pressure_due_to_dry_air` (src/evaluation/metrics.py lines
426-456) for one grid column; `nlev` is `specific_total_water.shape[-1]`,
the trailing-axis size of the stacked water tensor. -/
def surface_pressure_due_to_dry_air_col (wat : List ℚ) (nlev : ℕ) (ps : ℚ)
    (ak bk : List ℚ) : Except PyErr ℚ :=
  let num_levels : ℤ := (ak.length : ℤ) - 1
  if num_levels ≠ (bk.length : ℤ) - 1 ∨ num_levels ≠ (nlev : ℤ) then
    .error (.valueError "Number of vertical levels in ak, bk, and specific_total_water mustbe the same.")
  else
    .ok (ps - GRAVITY * vertical_integral wat ps ak bk)

/-! ## ClimateData (src/ace_inference/core/aggregator/climate_data.py) -/

/-- `CLIMATE_FIELD_NAME_PREFIXES` (climate_data.py lines 12-25). -/
def CLIMATE_FIELD_NAME_PREFIXES : List (String × List String) :=
  [ ("specific_total_water", ["specific_total_water_"]),
    ("surface_pressure", ["PRESsfc", "PS"]),
    ("tendency_of_total_water_path_due_to_advection",
      ["tendency_of_total_water_path_due_to_advection"]),
    ("latent_heat_flux", ["LHTFLsfc", "LHFLX"]),
    ("sensible_heat_flux", ["SHTFLsfc"]),
    ("precipitation_rate", ["PRATEsfc", "surface_precipitation_rate"]),
    ("sfc_down_sw_radiative_flux", ["DSWRFsfc"]),
    ("sfc_up_sw_radiative_flux", ["USWRFsfc"]),
    ("sfc_down_lw_radiative_flux", ["DLWRFsfc"]),
    ("sfc_up_lw_radiative_flux", ["ULWRFsfc"]) ]

def prefixesFor (name : String) : List String :=
  match (CLIMATE_FIELD_NAME_PREFIXES.find? (fun p => p.1 = name)) with
  | some p => p.2
  | none => []

/-- Python `str.startswith`: character-list prefix test. -/
def pyStartsWith (s pre : String) : Bool := pre.toList.isPrefixOf s.toList

/-- Python `str.endswith`: character-list suffix test. -/
def pyEndsWith (s suf : String) : Bool := suf.toList.isSuffixOf s.toList

/-- Python `str.lower` (ASCII case mapping; the field names in play are
ASCII). -/
def pyLower (s : String) : String := String.mk (s.toList.map Char.toLower)

/-- Python string `<`: lexicographic comparison by code point. -/
def charListLess : List Char → List Char → Bool
  | [], [] => false
  | [], _ :: _ => true
  | _ :: _, [] => false
  | c :: cs, d :: ds =>
    if c.toNat < d.toNat then true
    else if d.toNat < c.toNat then false
    else charListLess cs ds

def pyStrLess (a b : String) : Bool := charListLess a.toList b.toList

/-- One alphanumeric chunk of `natural_sort`'s `alphanum_key`: either a
lower-cased digit-free piece of text or the numeric value of a digit run. -/
inductive NatStrChunk where
  | str : String → NatStrChunk
  | num : ℕ → NatStrChunk
  deriving DecidableEq, Repr

/-- Group a character list into maximal runs of digits / non-digits. -/
def chunkRuns : List Char → List (List Char)
  | [] => []
  | c :: cs =>
    match chunkRuns cs with
    | [] => [[c]]
    | [] :: rest => [c] :: rest
    | (d :: ds) :: rest =>
      if c.isDigit = d.isDigit then (c :: d :: ds) :: rest
      else [c] :: (d :: ds) :: rest

/-- `re.split("([0-9]+)", s)`: the maximal digit / digit-free runs of `s`,
with an empty string added at either boundary when the string starts or
ends with a digit run (and `[""]` for the empty string), exactly as
`re.split` with one capture group produces. -/
def reSplitDigits (s : String) : List String :=
  match chunkRuns s.toList with
  | [] => [""]
  | runs =>
    let mid := runs.map (fun r => String.mk r)
    let withHead :=
      match runs.head? with
      | some (c :: _) => if c.isDigit then "" :: mid else mid
      | _ => mid
    match runs.getLast? with
    | some (c :: _) => if c.isDigit then withHead ++ [""] else withHead
    | _ => withHead

/-- Numeric value of a digit run (`int(text)`). -/
def digitsToNat (s : String) : ℕ :=
  s.toList.foldl (fun acc c => 10 * acc + (c.toNat - '0'.toNat)) 0

/-- `alphanum_key(item)`: split on digit runs, map digit runs through `int`
and the rest through `str.lower` (climate_data.py lines 36-43).  A chunk is
a digit chunk exactly when it is nonempty and all digits (`str.isdigit`). -/
def alphanum_key (item : String) : List NatStrChunk :=
  (reSplitDigits item).map
    (fun s => if s.toList.all Char.isDigit ∧ s ≠ "" then .num (digitsToNat s) else .str (pyLower s))

/-- Strict comparison of key chunks.  Python compares `int` with `int` and
`str` with `str`; comparing an `int` chunk with a `str` chunk raises
TypeError, which cannot occur for the level names this is applied to (they
share the digit/letter structure of a common prefix), so this total
extension (numbers before strings) is never exercised there. -/
def chunkLess : NatStrChunk → NatStrChunk → Bool
  | .str a, .str b => pyStrLess a b
  | .num a, .num b => a < b
  | .num _, .str _ => true
  | .str _, .num _ => false

/-- Lexicographic strict order on alphanum keys (Python list `<`). -/
def keyLess : List NatStrChunk → List NatStrChunk → Bool
  | [], [] => false
  | [], _ :: _ => true
  | _ :: _, [] => false
  | a :: as, b :: bs =>
    if chunkLess a b then true else if chunkLess b a then false else keyLess as bs

def naturalLess (a b : String) : Bool := keyLess (alphanum_key a) (alphanum_key b)

/-- Stable insertion preserving input order among equal keys. -/
def naturalInsert (x : String) : List String → List String
  | [] => [x]
  | y :: ys => if naturalLess x y then x :: y :: ys else y :: naturalInsert x ys

/-- `natural_sort` (climate_data.py lines 28-45): stable sort by
`alphanum_key`. -/
def natural_sort (l : List String) : List String :=
  l.foldl (fun acc x => naturalInsert x acc) []

/-- `_extract_prefix_levels` (climate_data.py lines 77-84), name collection
part: the field names starting with `prefix`, in dict order, naturally
sorted; `KeyError(prefix)` if none match. -/
def extractPrefixNames {ι : Type} (m : FieldMap ι) (pre : String) :
    Except PyErr (List String) :=
  let names := (fmKeys m).filter (fun n => pyStartsWith n pre)
  if names = [] then .error (.keyError pre) else .ok (natural_sort names)

/-- `_extract_levels` (climate_data.py lines 69-75): try each prefix,
re-raising `KeyError(name)` if all fail.  (Python puts the whole prefix
list in the KeyError; we record the canonical name.) -/
def extractLevelsNames {ι : Type} (m : FieldMap ι) (canonical : String) :
    List String → Except PyErr (List String)
  | [] => .error (.keyError canonical)
  | pre :: rest =>
    match extractPrefixNames m pre with
    | .ok names => .ok names
    | .error _ => extractLevelsNames m canonical rest

/-- The sorted names of the specific-total-water levels of the mapping. -/
def cdWaterNames {ι : Type} (m : FieldMap ι) : Except PyErr (List String) :=
  extractLevelsNames m "specific_total_water" (prefixesFor "specific_total_water")

/-- `torch.stack([self._data[name] for name in names], dim=-1)`
(climate_data.py line 84): the stacked multi-level tensor, vertical axis
last.  All `names` are keys of the mapping by construction, so the lookup
default is never used. -/
def stackLevels {ι : Type} (m : FieldMap ι) (names : List String) : ι → List ℚ :=
  fun i => names.map (fun n => ((fmLookup m n).getD (fun _ => 0)) i)

/-- `ClimateData._get` (climate_data.py lines 86-90): first present alias
wins, `KeyError(name)` if no alias is a key. -/
def cdGetAux {ι : Type} (m : FieldMap ι) (name : String) :
    List String → Except PyErr (Tensor ι)
  | [] => .error (.keyError name)
  | pre :: rest =>
    match fmLookup m pre with
    | some v => .ok v
    | none => cdGetAux m name rest

def cdGet {ι : Type} (m : FieldMap ι) (name : String) : Except PyErr (Tensor ι) :=
  cdGetAux m name (prefixesFor name)

/-- `ClimateData._set` (climate_data.py lines 95-103): write through the
first present alias, `KeyError(name)` if no alias is a key. -/
def cdSetAux {ι : Type} (m : FieldMap ι) (name : String) (v : Tensor ι) :
    List String → Except PyErr (FieldMap ι)
  | [] => .error (.keyError name)
  | pre :: rest =>
    if fmContains m pre then .ok (fmInsert m pre v) else cdSetAux m name v rest

def cdSet {ι : Type} (m : FieldMap ι) (name : String) (v : Tensor ι) :
    Except PyErr (FieldMap ι) :=
  cdSetAux m name v (prefixesFor name)

/-- `ClimateData.surface_pressure_due_to_dry_air` (climate_data.py lines
125-131): stack the water levels (argument evaluated first), read surface
pressure, then apply the metrics function per column. -/
def cdSurfacePressureDueToDryAir {ι : Type} (m : FieldMap ι) (ak bk : List ℚ) :
    Except PyErr (Tensor ι) :=
  match cdWaterNames m with
  | .error e => .error e
  | .ok ns =>
    match cdGet m "surface_pressure" with
    | .error e => .error e
    | .ok ps =>
      let num_levels : ℤ := (ak.length : ℤ) - 1
      if num_levels ≠ (bk.length : ℤ) - 1 ∨ num_levels ≠ (ns.length : ℤ) then
        .error (.valueError "Number of vertical levels in ak, bk, and specific_total_water mustbe the same.")
      else
        .ok (fun i => ps i - GRAVITY * vertical_integral (stackLevels m ns i) (ps i) ak bk)

/-- `ClimateData.total_water_path` (climate_data.py lines 133-139):
`vertical_integral(specific_total_water, surface_pressure, ak, bk)` —
note: no level-count check here, unlike the dry-air computation. -/
def cdTotalWaterPath {ι : Type} (m : FieldMap ι) (ak bk : List ℚ) :
    Except PyErr (Tensor ι) :=
  match cdWaterNames m with
  | .error e => .error e
  | .ok ns =>
    match cdGet m "surface_pressure" with
    | .error e => .error e
    | .ok ps => .ok (fun i => vertical_integral (stackLevels m ns i) (ps i) ak bk)

/-- Modelled from the spec: `LATENT_HEAT_OF_VAPORIZATION` lives in
`src/ace_inference/core/constants.py`, which is not part of the provided
sources.  The spec fixes only that evaporation is derived as
`latent_heat_flux / L_v`; the standard value 2.5e6 J/kg is used.  No claim
depends on the numeric value. -/
def LATENT_HEAT_OF_VAPORIZATION : ℚ := 2500000

/-- `ClimateData.evaporation_rate` getter (climate_data.py lines 174-181). -/
def cdEvaporationRate {ι : Type} (m : FieldMap ι) : Except PyErr (Tensor ι) :=
  match cdGet m "latent_heat_flux" with
  | .error e => .error e
  | .ok lhf => .ok (fun i => lhf i / LATENT_HEAT_OF_VAPORIZATION)

/-- Modelled from the spec: `TIMESTEP_SECONDS` lives in
`src/ace_inference/core/constants.py`, which is not part of the provided
sources.  The spec fixes only that it is "the fixed model timestep in
seconds"; a 6-hour step (21600 s) is used.  No claim depends on the
numeric value. -/
def TIMESTEP_SECONDS : ℚ := 21600

/-! ## Corrector (src/ace_inference/core/corrector.py) -/

/-- Python's `x is None` test on a value obtained from
`ClimateData.surface_pressure`.  That property returns an entry of the
`Mapping[str, torch.Tensor]` (a tensor) or raises `KeyError`; a tensor is
never `None`, so the test is constantly false. -/
def tensorIsNone {ι : Type} (_ : Tensor ι) : Bool := false

/-- `_force_conserve_dry_air` (corrector.py lines 136-188).  Sigma
coordinates are passed as their `ak`, `bk` offset lists; `area` is the
area-weight tensor.  The trailing `.to(dtype=...)` cast is the identity in
the exact rational model. -/
def force_conserve_dry_air {ι : Type} [Fintype ι]
    (input_data gen_data : FieldMap ι) (area : Tensor ι) (ak bk : List ℚ) :
    Except PyErr (FieldMap ι) :=
  match cdGet input_data "surface_pressure" with
  | .error e => .error e
  | .ok input_ps =>
    if tensorIsNone input_ps then
      .error (.valueError "surface_pressure is required to force dry air conservation")
    else
      match cdSurfacePressureDueToDryAir gen_data ak bk with
      | .error e => .error e
      | .ok gen_dry_air =>
        let global_gen_dry_air := weighted_mean gen_dry_air area
        match cdSurfacePressureDueToDryAir input_data ak bk with
        | .error e => .error e
        | .ok input_dry_air =>
          let global_target_gen_dry_air := weighted_mean input_dry_air area
          let err := global_gen_dry_air - global_target_gen_dry_air
          let new_gen_dry_air : Tensor ι := fun i => gen_dry_air i - err
          match cdWaterNames gen_data with
          | .error _ => .error (.valueError "specific_total_water is required for conservation")
          | .ok ns =>
            let wat := stackLevels gen_data ns
            let ak_diff := listDiff ak
            let bk_diff := listDiff bk
            let new_pressure : Tensor ι := fun i =>
              (new_gen_dry_air i + (List.zipWith (· * ·) ak_diff (wat i)).sum) /
                (1 - (List.zipWith (· * ·) bk_diff (wat i)).sum)
            cdSet gen_data "surface_pressure" new_pressure

/-- `_force_zero_global_mean_moisture_advection` (corrector.py lines
191-215). -/
def force_zero_global_mean_moisture_advection {ι : Type} [Fintype ι]
    (gen_data : FieldMap ι) (area : Tensor ι) : Except PyErr (FieldMap ι) :=
  match cdGet gen_data "tendency_of_total_water_path_due_to_advection" with
  | .error e => .error e
  | .ok adv =>
    let mean_moisture_advection := weighted_mean adv area
    cdSet gen_data "tendency_of_total_water_path_due_to_advection"
      (fun i => adv i - mean_moisture_advection)

/-- `_force_conserve_moisture` (corrector.py lines 218-296).
`terms_to_modify` is one of `"precipitation"`, `"evaporation"`,
`"advection_and_precipitation"`, `"advection_and_evaporation"`.  The
`gen.evaporation_rate` / `gen.precipitation_rate` reads in the advection
branch go through the (possibly already mutated) ClimateData state, as in
the source. -/
def force_conserve_moisture {ι : Type} [Fintype ι]
    (input_data gen_data : FieldMap ι) (area : Tensor ι) (ak bk : List ℚ)
    (terms_to_modify : String) : Except PyErr (FieldMap ι) :=
  match cdTotalWaterPath gen_data ak bk with
  | .error e => .error e
  | .ok gen_total_water_path =>
    match cdTotalWaterPath input_data ak bk with
    | .error e => .error e
    | .ok input_total_water_path =>
      let twp_total_tendency : Tensor ι := fun i =>
        (gen_total_water_path i - input_total_water_path i) / TIMESTEP_SECONDS
      let twp_tendency_global_mean := weighted_mean twp_total_tendency area
      match cdEvaporationRate gen_data with
      | .error e => .error e
      | .ok evaporation =>
        let evaporation_global_mean := weighted_mean evaporation area
        match cdGet gen_data "precipitation_rate" with
        | .error e => .error e
        | .ok precipitation =>
          let precipitation_global_mean := weighted_mean precipitation area
          let branch1 : Except PyErr (FieldMap ι) :=
            if pyEndsWith terms_to_modify "precipitation" then
              let new_precipitation_global_mean :=
                evaporation_global_mean - twp_tendency_global_mean
              cdSet gen_data "precipitation_rate"
                (fun i => precipitation i *
                  (new_precipitation_global_mean / precipitation_global_mean))
            else if pyEndsWith terms_to_modify "evaporation" then
              let new_evaporation_global_mean :=
                twp_tendency_global_mean + precipitation_global_mean
              -- gen.evaporation_rate setter writes latent_heat_flux = value * L_v
              cdSet gen_data "latent_heat_flux"
                (fun i => evaporation i *
                  (new_evaporation_global_mean / evaporation_global_mean) *
                  LATENT_HEAT_OF_VAPORIZATION)
            else .ok gen_data
          match branch1 with
          | .error e => .error e
          | .ok gen_data1 =>
            if pyStartsWith terms_to_modify "advection" then
              match cdEvaporationRate gen_data1 with
              | .error e => .error e
              | .ok evaporation1 =>
                match cdGet gen_data1 "precipitation_rate" with
                | .error e => .error e
                | .ok precipitation1 =>
                  let new_advection : Tensor ι := fun i =>
                    twp_total_tendency i - (evaporation1 i - precipitation1 i)
                  cdSet gen_data1 "tendency_of_total_water_path_due_to_advection"
                    new_advection
            else .ok gen_data1

/-! ## Supporting lemmas -/

theorem listDiff_length : ∀ l : List ℚ, (listDiff l).length = l.length - 1
  | [] => rfl
  | [_] => rfl
  | _ :: b :: rest => by
    have ih := listDiff_length (b :: rest)
    simp [listDiff] at ih ⊢
    omega

theorem listDiff_zipWith (p : ℚ) : ∀ (ak bk : List ℚ), ak.length = bk.length →
    listDiff (List.zipWith (fun a b => a + p * b) ak bk)
      = List.zipWith (fun x y => x + p * y) (listDiff ak) (listDiff bk)
  | [], [], _ => rfl
  | [_], [_], _ => rfl
  | [], _ :: _, h => by simp at h
  | _ :: _, [], h => by simp at h
  | [_], _ :: _ :: _, h => by simp at h
  | _ :: _ :: _, [_], h => by simp at h
  | a₁ :: a₂ :: as, b₁ :: b₂ :: bs, h => by
    have ih := listDiff_zipWith p (a₂ :: as) (b₂ :: bs) (by simpa using h)
    simp only [List.zipWith_cons_cons, listDiff] at ih ⊢
    rw [ih]
    have harith : (a₂ + p * b₂) - (a₁ + p * b₁) = (a₂ - a₁) + p * (b₂ - b₁) := by ring
    rw [harith]

theorem sum_zipWith_add_mul (p : ℚ) : ∀ (dak dbk w : List ℚ), dak.length = dbk.length →
    (List.zipWith (· * ·) (List.zipWith (fun x y => x + p * y) dak dbk) w).sum
      = (List.zipWith (· * ·) dak w).sum + p * (List.zipWith (· * ·) dbk w).sum
  | [], [], _, _ => by simp
  | [], _ :: _, _, h => by simp at h
  | _ :: _, [], _, h => by simp at h
  | _ :: _, _ :: _, [], _ => by simp
  | a :: as, b :: bs, c :: cs, h => by
    have ih := sum_zipWith_add_mul p as bs cs (by simpa using h)
    simp only [List.zipWith_cons_cons, List.sum_cons]
    rw [ih]; ring

theorem GRAVITY_ne_zero : GRAVITY ≠ 0 := by norm_num [GRAVITY]

/-- Peel off the `1/g` factor: `g * ∫ = Σ Δak·w + ps · Σ Δbk·w`. -/
theorem gravity_mul_vertical_integral (w : List ℚ) (ps : ℚ) (ak bk : List ℚ)
    (h : ak.length = bk.length) :
    GRAVITY * vertical_integral w ps ak bk
      = (List.zipWith (· * ·) (listDiff ak) w).sum
        + ps * (List.zipWith (· * ·) (listDiff bk) w).sum := by
  simp only [vertical_integral]
  rw [listDiff_zipWith ps ak bk h,
    sum_zipWith_add_mul ps (listDiff ak) (listDiff bk) w
      (by rw [listDiff_length, listDiff_length, h])]
  rw [← mul_assoc, mul_one_div_cancel GRAVITY_ne_zero, one_mul]

theorem weighted_mean_sub_const {ι : Type} [Fintype ι] (f w : Tensor ι) (c : ℚ)
    (hw : (∑ i, w i) ≠ 0) :
    weighted_mean (fun i => f i - c) w = weighted_mean f w - c := by
  unfold weighted_mean
  rw [eq_sub_iff_add_eq, div_add' _ _ _ hw]
  congr 1
  simp [sub_mul, Finset.sum_sub_distrib, Finset.mul_sum]

theorem weighted_mean_mul_const {ι : Type} [Fintype ι] (f w : Tensor ι) (c : ℚ) :
    weighted_mean (fun i => f i * c) w = weighted_mean f w * c := by
  unfold weighted_mean
  rw [div_mul_eq_mul_div]
  congr 1
  rw [Finset.sum_mul]
  exact Finset.sum_congr rfl (fun i _ => by ring)

theorem mem_naturalInsert (x y : String) (l : List String) :
    y ∈ naturalInsert x l ↔ y = x ∨ y ∈ l := by
  induction l with
  | nil => simp [naturalInsert]
  | cons z zs ih =>
    by_cases h : naturalLess x z
    · simp [naturalInsert, h]
    · simp [naturalInsert, h, ih]; tauto

theorem mem_natural_sort (l : List String) (y : String) :
    y ∈ natural_sort l ↔ y ∈ l := by
  suffices h : ∀ acc, y ∈ l.foldl (fun acc x => naturalInsert x acc) acc ↔ y ∈ acc ∨ y ∈ l by
    simpa [natural_sort] using h []
  induction l with
  | nil => simp
  | cons z zs ih =>
    intro acc
    simp only [List.foldl_cons, ih, mem_naturalInsert, List.mem_cons]
    tauto

/-- Inverting a successful alias write (`ClimateData._set`): the result is a
single-key dict update at the first present alias, the keys are unchanged,
re-reading the canonical name through the same alias list returns the new
value, and every other key's value is untouched. -/
theorem cdSetAux_ok {ι : Type} (m : FieldMap ι) (name : String) (v : Tensor ι) :
    ∀ (ps : List String) (out : FieldMap ι), cdSetAux m name v ps = .ok out →
      ∃ kp, kp ∈ ps ∧ fmContains m kp = true ∧ out = fmInsert m kp v ∧
        cdGetAux out name ps = .ok v
  | [], out, h => by simp [cdSetAux] at h
  | p :: rest, out, h => by
    by_cases hp : fmContains m p
    · refine ⟨p, List.mem_cons_self p rest, hp, ?_, ?_⟩
      · simp [cdSetAux, hp] at h
        exact h.symm
      · simp [cdSetAux, hp] at h
        simp [cdGetAux, ← h, fmLookup_fmInsert_self]
    · simp only [cdSetAux, hp, if_false] at h
      obtain ⟨kp, hkp, hc, hout, hget⟩ := cdSetAux_ok m name v rest out h
      have hne : kp ≠ p := fun he => hp (he ▸ hc)
      refine ⟨kp, List.mem_cons_of_mem p hkp, hc, hout, ?_⟩
      have hlp : fmLookup out p = none := by
        rw [hout, fmLookup_fmInsert_ne m kp p v hne]
        cases hl : fmLookup m p with
        | none => rfl
        | some t =>
          exact absurd ((fmContains_iff_lookup_isSome m p).mpr (by simp [hl]))
            (by simp [hp])
      simp [cdGetAux, hlp, hget]

theorem cdSet_keys {ι : Type} (m : FieldMap ι) (name : String) (v : Tensor ι)
    (out : FieldMap ι) (h : cdSet m name v = .ok out) : fmKeys out = fmKeys m := by
  obtain ⟨kp, _, hc, hout, _⟩ := cdSetAux_ok m name v _ out h
  rw [hout]
  exact fmKeys_fmInsert m kp v hc

theorem cdSet_get {ι : Type} (m : FieldMap ι) (name : String) (v : Tensor ι)
    (out : FieldMap ι) (h : cdSet m name v = .ok out) : cdGet out name = .ok v := by
  obtain ⟨kp, _, _, _, hget⟩ := cdSetAux_ok m name v _ out h
  exact hget

theorem prefixesFor_water :
    prefixesFor "specific_total_water" = ["specific_total_water_"] := by decide

/-- `cdWaterNames` in terms of the key filter: it succeeds exactly when
some key starts with the water prefix, returning the natural sort of the
matching keys. -/
theorem cdWaterNames_eq {ι : Type} (m : FieldMap ι) :
    cdWaterNames m =
      (if (fmKeys m).filter (fun n => pyStartsWith n "specific_total_water_") = []
       then .error (.keyError "specific_total_water")
       else .ok (natural_sort
         ((fmKeys m).filter (fun n => pyStartsWith n "specific_total_water_")))) := by
  unfold cdWaterNames
  rw [prefixesFor_water]
  by_cases he : (fmKeys m).filter (fun n => pyStartsWith n "specific_total_water_") = []
  · have h1 : extractPrefixNames m "specific_total_water_"
        = (.error (.keyError "specific_total_water_") : Except PyErr (List String)) := by
      unfold extractPrefixNames
      rw [if_pos he]
    simp [extractLevelsNames, h1, he]
  · have h1 : extractPrefixNames m "specific_total_water_"
        = .ok (natural_sort
            ((fmKeys m).filter (fun n => pyStartsWith n "specific_total_water_"))) := by
      unfold extractPrefixNames
      rw [if_neg he]
    simp [extractLevelsNames, h1, he]

/-- `cdWaterNames` depends only on the key set of the mapping. -/
theorem cdWaterNames_congr {ι ι' : Type} (m : FieldMap ι) (m' : FieldMap ι')
    (h : fmKeys m = fmKeys m') : cdWaterNames m = cdWaterNames m' := by
  rw [cdWaterNames_eq, cdWaterNames_eq, h]

theorem cdWaterNames_startsWith {ι : Type} (m : FieldMap ι) (ns : List String)
    (h : cdWaterNames m = .ok ns) :
    ∀ n ∈ ns, pyStartsWith n "specific_total_water_" = true := by
  rw [cdWaterNames_eq] at h
  by_cases he : (fmKeys m).filter (fun n => pyStartsWith n "specific_total_water_") = []
  · rw [if_pos he] at h
    exact absurd h (by simp)
  · rw [if_neg he] at h
    injection h with h
    intro n hn
    rw [← h, mem_natural_sort] at hn
    exact (List.mem_filter.mp hn).2

theorem stackLevels_congr {ι : Type} (m m' : FieldMap ι) (ns : List String)
    (h : ∀ n ∈ ns, fmLookup m n = fmLookup m' n) :
    stackLevels m ns = stackLevels m' ns := by
  funext i
  unfold stackLevels
  exact List.map_congr_left (fun n hn => by rw [h n hn])

/-- Inverting a successful dry-air computation. -/
theorem spdda_ok_inv {ι : Type} (m : FieldMap ι) (ak bk : List ℚ) (da : Tensor ι)
    (h : cdSurfacePressureDueToDryAir m ak bk = .ok da) :
    ∃ ns ps, cdWaterNames m = .ok ns ∧ cdGet m "surface_pressure" = .ok ps ∧
      ((ak.length : ℤ) - 1 = (bk.length : ℤ) - 1 ∧
        (ak.length : ℤ) - 1 = (ns.length : ℤ)) ∧
      da = fun i =>
        ps i - GRAVITY * vertical_integral (stackLevels m ns i) (ps i) ak bk := by
  unfold cdSurfacePressureDueToDryAir at h
  cases hw : cdWaterNames m with
  | error e => simp [hw] at h
  | ok ns =>
    simp only [hw] at h
    cases hp : cdGet m "surface_pressure" with
    | error e => simp [hp] at h
    | ok ps =>
      simp only [hp] at h
      by_cases hc : ((ak.length : ℤ) - 1 ≠ (bk.length : ℤ) - 1 ∨
          (ak.length : ℤ) - 1 ≠ (ns.length : ℤ))
      · rw [if_pos hc] at h; exact absurd h (by simp)
      · rw [if_neg hc] at h
        push_neg at hc
        injection h with h
        exact ⟨ns, ps, rfl, rfl, hc, h.symm⟩

/-- Building a successful dry-air computation. -/
theorem spdda_ok_build {ι : Type} (m : FieldMap ι) (ak bk : List ℚ)
    (ns : List String) (ps : Tensor ι)
    (h1 : cdWaterNames m = .ok ns) (h2 : cdGet m "surface_pressure" = .ok ps)
    (hc : (ak.length : ℤ) - 1 = (bk.length : ℤ) - 1 ∧
      (ak.length : ℤ) - 1 = (ns.length : ℤ)) :
    cdSurfacePressureDueToDryAir m ak bk = .ok (fun i =>
      ps i - GRAVITY * vertical_integral (stackLevels m ns i) (ps i) ak bk) := by
  unfold cdSurfacePressureDueToDryAir
  simp only [h1, h2]
  rw [if_neg]
  push_neg
  exact hc

/-- The dry-air / surface-pressure inversion at one grid column: plugging
`ps = (d + Σ Δak·w) / (1 − Σ Δbk·w)` into
`ps − g·vertical_integral(w, ps)` recovers `d`. -/
theorem dry_air_solve (w ak bk : List ℚ) (d : ℚ) (hlen : ak.length = bk.length)
    (hden : 1 - (List.zipWith (· * ·) (listDiff bk) w).sum ≠ 0) :
    ((d + (List.zipWith (· * ·) (listDiff ak) w).sum)
        / (1 - (List.zipWith (· * ·) (listDiff bk) w).sum))
      - GRAVITY * vertical_integral w
          ((d + (List.zipWith (· * ·) (listDiff ak) w).sum)
            / (1 - (List.zipWith (· * ·) (listDiff bk) w).sum)) ak bk = d := by
  rw [gravity_mul_vertical_integral w _ ak bk hlen]
  field_simp
  ring

theorem prefixesFor_surface_pressure :
    prefixesFor "surface_pressure" = ["PRESsfc", "PS"] := by decide

/-- C1 (main result): a successful dry-air correction conserves the
area-weighted global mean of `surface_pressure_due_to_dry_air`, and the
corrected surface pressure is exactly
`(corrected_dry_air + Σ Δak·q) / (1 − Σ Δbk·q)`. -/
theorem C1_force_conserve_dry_air_conserves {ι : Type} [Fintype ι]
    (input_data gen_data out : FieldMap ι) (area : Tensor ι) (ak bk : List ℚ)
    (ns : List String)
    (h : force_conserve_dry_air input_data gen_data area ak bk = .ok out)
    (hns : cdWaterNames gen_data = .ok ns)
    (hden : ∀ i,
      1 - (List.zipWith (· * ·) (listDiff bk) (stackLevels gen_data ns i)).sum ≠ 0)
    (harea : (∑ i, area i) ≠ 0) :
    ∃ outDA inDA genDA : Tensor ι,
      cdSurfacePressureDueToDryAir out ak bk = .ok outDA ∧
      cdSurfacePressureDueToDryAir input_data ak bk = .ok inDA ∧
      cdSurfacePressureDueToDryAir gen_data ak bk = .ok genDA ∧
      weighted_mean outDA area = weighted_mean inDA area ∧
      cdGet out "surface_pressure" = .ok (fun i =>
        ((genDA i - (weighted_mean genDA area - weighted_mean inDA area))
            + (List.zipWith (· * ·) (listDiff ak) (stackLevels gen_data ns i)).sum)
          / (1 - (List.zipWith (· * ·) (listDiff bk) (stackLevels gen_data ns i)).sum)) := by
  unfold force_conserve_dry_air at h
  cases hip : cdGet input_data "surface_pressure" with
  | error e => simp [hip] at h
  | ok ips =>
    simp only [hip] at h
    rw [if_neg (by simp [tensorIsNone] : ¬ (tensorIsNone ips = true))] at h
    cases hgda : cdSurfacePressureDueToDryAir gen_data ak bk with
    | error e => simp [hgda] at h
    | ok genDA =>
      simp only [hgda] at h
      cases hida : cdSurfacePressureDueToDryAir input_data ak bk with
      | error e => simp [hida] at h
      | ok inDA =>
        simp only [hida] at h
        simp only [hns] at h
        -- h is now the final cdSet call
        have hkeys := cdSet_keys _ _ _ _ h
        have hget := cdSet_get _ _ _ _ h
        obtain ⟨kp, hkp, hkc, hout, -⟩ :=
          cdSetAux_ok gen_data "surface_pressure" _ (prefixesFor "surface_pressure") _ h
        -- the written alias is not a water-level name
        have hkp2 : kp = "PRESsfc" ∨ kp = "PS" := by
          rw [prefixesFor_surface_pressure] at hkp
          simpa using hkp
        have hwater := cdWaterNames_startsWith gen_data ns hns
        have hnkp : ∀ n ∈ ns, n ≠ kp := by
          intro n hn hcontra
          have hsw := hwater n hn
          rcases hkp2 with hk | hk <;> rw [hcontra, hk] at hsw <;> exact absurd hsw (by decide)
        have hstack : stackLevels out ns = stackLevels gen_data ns := by
          refine stackLevels_congr out gen_data ns (fun n hn => ?_)
          rw [hout]
          exact fmLookup_fmInsert_ne gen_data kp n _ (fun he => hnkp n hn he.symm)
        -- facts from the generated state's dry-air computation
        obtain ⟨ns', gps, hns', -, hc, -⟩ := spdda_ok_inv gen_data ak bk genDA hgda
        have hnseq : ns' = ns := by
          rw [hns] at hns'
          injection hns' with he
          exact he.symm
        rw [hnseq] at hc
        have hlen : ak.length = bk.length := by omega
        have hwout : cdWaterNames out = .ok ns := by
          rw [cdWaterNames_congr out gen_data hkeys]
          exact hns
        -- the dry-air field of the corrected state
        have houtda := spdda_ok_build out ak bk ns _ hwout hget hc
        rw [hstack] at houtda
        refine ⟨_, inDA, genDA, houtda, rfl, rfl, ?_, hget⟩
        have hpoint : ∀ i,
            (fun i =>
              ((genDA i - (weighted_mean genDA area - weighted_mean inDA area))
                  + (List.zipWith (· * ·) (listDiff ak) (stackLevels gen_data ns i)).sum)
                / (1 - (List.zipWith (· * ·) (listDiff bk) (stackLevels gen_data ns i)).sum)) i
              - GRAVITY * vertical_integral (stackLevels gen_data ns i)
                ((fun i =>
                  ((genDA i - (weighted_mean genDA area - weighted_mean inDA area))
                      + (List.zipWith (· * ·) (listDiff ak) (stackLevels gen_data ns i)).sum)
                    / (1 - (List.zipWith (· * ·) (listDiff bk) (stackLevels gen_data ns i)).sum)) i)
                ak bk
            = genDA i - (weighted_mean genDA area - weighted_mean inDA area) := by
          intro i
          exact dry_air_solve (stackLevels gen_data ns i) ak bk _ hlen (hden i)
        calc weighted_mean (fun i =>
              (fun i =>
                ((genDA i - (weighted_mean genDA area - weighted_mean inDA area))
                    + (List.zipWith (· * ·) (listDiff ak) (stackLevels gen_data ns i)).sum)
                  / (1 - (List.zipWith (· * ·) (listDiff bk) (stackLevels gen_data ns i)).sum)) i
              - GRAVITY * vertical_integral (stackLevels gen_data ns i)
                ((fun i =>
                  ((genDA i - (weighted_mean genDA area - weighted_mean inDA area))
                      + (List.zipWith (· * ·) (listDiff ak) (stackLevels gen_data ns i)).sum)
                    / (1 - (List.zipWith (· * ·) (listDiff bk) (stackLevels gen_data ns i)).sum)) i)
                ak bk) area
            = weighted_mean (fun i =>
                genDA i - (weighted_mean genDA area - weighted_mean inDA area)) area := by
              congr 1
              funext i
              exact hpoint i
          _ = weighted_mean genDA area
              - (weighted_mean genDA area - weighted_mean inDA area) :=
              weighted_mean_sub_const genDA area _ harea
          _ = weighted_mean inDA area := by ring

/-! ## C1 witness data: the spec's 2-level toy sigma grid -/

def c1Gen : FieldMap (Fin 1) :=
  [("specific_total_water_1", fun _ => 1/5), ("PRESsfc", fun _ => 1000),
   ("specific_total_water_0", fun _ => 1/10)]

def c1Input : FieldMap (Fin 1) :=
  [("PRESsfc", fun _ => 900), ("specific_total_water_0", fun _ => 1/20),
   ("specific_total_water_1", fun _ => 1/10)]

def c1Out : FieldMap (Fin 1) :=
  [("specific_total_water_1", fun _ => 1/5), ("PRESsfc", fun _ => 20850/23),
   ("specific_total_water_0", fun _ => 1/10)]

def c1Ns : List String := ["specific_total_water_0", "specific_total_water_1"]

/-- C1 witness: the dry-air stage applied to a concrete 2-level state on a
1-cell grid, discharging every hypothesis of the conservation theorem. -/
theorem C1_witness :
    ∃ outDA inDA genDA : Tensor (Fin 1),
      cdSurfacePressureDueToDryAir c1Out [0,500,1000] [1,1/2,0] = .ok outDA ∧
      cdSurfacePressureDueToDryAir c1Input [0,500,1000] [1,1/2,0] = .ok inDA ∧
      cdSurfacePressureDueToDryAir c1Gen [0,500,1000] [1,1/2,0] = .ok genDA ∧
      weighted_mean outDA (fun _ => 1) = weighted_mean inDA (fun _ => 1) ∧
      cdGet c1Out "surface_pressure" = .ok (fun i =>
        ((genDA i - (weighted_mean genDA (fun _ => 1) - weighted_mean inDA (fun _ => 1)))
            + (List.zipWith (· * ·) (listDiff [0,500,1000]) (stackLevels c1Gen c1Ns i)).sum)
          / (1 - (List.zipWith (· * ·) (listDiff [(1:ℚ),1/2,0]) (stackLevels c1Gen c1Ns i)).sum)) :=
  C1_force_conserve_dry_air_conserves c1Input c1Gen c1Out (fun _ => 1) [0,500,1000] [1,1/2,0] c1Ns
    (by norm_num +decide [force_conserve_dry_air, tensorIsNone, cdSurfacePressureDueToDryAir,
      cdWaterNames, extractLevelsNames, extractPrefixNames, prefixesFor,
      CLIMATE_FIELD_NAME_PREFIXES, c1Gen, c1Input, c1Out, fmKeys, natural_sort, naturalInsert,
      naturalLess, keyLess, chunkLess, alphanum_key, reSplitDigits, chunkRuns, digitsToNat,
      cdGet, cdGetAux, cdSet, cdSetAux, fmInsert, fmContains, fmLookup, stackLevels,
      vertical_integral, listDiff, GRAVITY, weighted_mean, pyStartsWith, pyLower, pyStrLess,
      charListLess])
    (by norm_num +decide [cdWaterNames, extractLevelsNames, extractPrefixNames, prefixesFor,
      CLIMATE_FIELD_NAME_PREFIXES, c1Gen, c1Ns, fmKeys, natural_sort, naturalInsert,
      naturalLess, keyLess, chunkLess, alphanum_key, reSplitDigits, chunkRuns, digitsToNat,
      pyStartsWith, pyLower, pyStrLess, charListLess])
    (by intro i
        norm_num +decide [c1Gen, c1Ns, stackLevels, fmLookup, listDiff])
    (by norm_num)

/-! ## C5: zero global-mean moisture advection -/

theorem prefixesFor_advection :
    prefixesFor "tendency_of_total_water_path_due_to_advection"
      = ["tendency_of_total_water_path_due_to_advection"] := by decide

/-- C5 (main result): after a successful stage 2, the area-weighted global
mean of the advection tendency is exactly zero (rational model), the new
field is the old one minus its global mean, and no other key's value is
modified. -/
theorem C5_zero_global_mean_advection {ι : Type} [Fintype ι]
    (gen_data out : FieldMap ι) (area : Tensor ι)
    (h : force_zero_global_mean_moisture_advection gen_data area = .ok out)
    (hnn : ∀ i, 0 ≤ area i) (hpos : 0 < ∑ i, area i) :
    ∃ adv : Tensor ι,
      cdGet gen_data "tendency_of_total_water_path_due_to_advection" = .ok adv ∧
      cdGet out "tendency_of_total_water_path_due_to_advection"
        = .ok (fun i => adv i - weighted_mean adv area) ∧
      weighted_mean (fun i => adv i - weighted_mean adv area) area = 0 ∧
      fmKeys out = fmKeys gen_data ∧
      (∀ k, k ≠ "tendency_of_total_water_path_due_to_advection" →
        fmLookup out k = fmLookup gen_data k) := by
  unfold force_zero_global_mean_moisture_advection at h
  cases hadv : cdGet gen_data "tendency_of_total_water_path_due_to_advection" with
  | error e => simp [hadv] at h
  | ok adv =>
    simp only [hadv] at h
    obtain ⟨kp, hkp, hkc, hout, -⟩ := cdSetAux_ok gen_data
      "tendency_of_total_water_path_due_to_advection" _
      (prefixesFor "tendency_of_total_water_path_due_to_advection") _ h
    have hkpe : kp = "tendency_of_total_water_path_due_to_advection" := by
      rw [prefixesFor_advection] at hkp
      simpa using hkp
    refine ⟨adv, rfl, cdSet_get _ _ _ _ h, ?_, cdSet_keys _ _ _ _ h, ?_⟩
    · rw [weighted_mean_sub_const adv area _ (ne_of_gt hpos)]
      ring
    · intro k hk
      rw [hout, hkpe]
      exact fmLookup_fmInsert_ne _ _ _ _ (fun he => hk (he.symm))

def c5Gen : FieldMap (Fin 1) :=
  [("tendency_of_total_water_path_due_to_advection", fun _ => 7), ("PRESsfc", fun _ => 3)]

def c5Out : FieldMap (Fin 1) :=
  [("tendency_of_total_water_path_due_to_advection", fun _ => 0), ("PRESsfc", fun _ => 3)]

/-- C5 witness: stage 2 on a concrete one-cell state. -/
theorem C5_witness :
    ∃ adv : Tensor (Fin 1),
      cdGet c5Gen "tendency_of_total_water_path_due_to_advection" = .ok adv ∧
      cdGet c5Out "tendency_of_total_water_path_due_to_advection"
        = .ok (fun i => adv i - weighted_mean adv (fun _ => 1)) ∧
      weighted_mean (fun i => adv i - weighted_mean adv (fun _ => 1)) (fun _ => 1) = 0 ∧
      fmKeys c5Out = fmKeys c5Gen ∧
      (∀ k, k ≠ "tendency_of_total_water_path_due_to_advection" →
        fmLookup c5Out k = fmLookup c5Gen k) :=
  C5_zero_global_mean_advection c5Gen c5Out (fun _ => 1)
    (by norm_num +decide [force_zero_global_mean_moisture_advection, cdGet, cdGetAux,
      cdSet, cdSetAux, prefixesFor, CLIMATE_FIELD_NAME_PREFIXES, c5Gen, c5Out,
      fmLookup, fmContains, fmInsert, weighted_mean])
    (fun _ => by norm_num)
    (by norm_num)

/-! ## C2: moisture budget closure, mode "advection_and_precipitation" -/

theorem cdGetAux_fmInsert_ne {ι : Type} (m : FieldMap ι) (name kp : String)
    (v : Tensor ι) : ∀ ps : List String, (∀ p ∈ ps, p ≠ kp) →
    cdGetAux (fmInsert m kp v) name ps = cdGetAux m name ps
  | [], _ => rfl
  | p :: rest, hps => by
    have hne : kp ≠ p := fun he => hps p (List.mem_cons_self p rest) he.symm
    simp only [cdGetAux, fmLookup_fmInsert_ne m kp p v hne]
    cases fmLookup m p with
    | some w => rfl
    | none =>
      exact cdGetAux_fmInsert_ne m name kp v rest
        (fun q hq => hps q (List.mem_cons_of_mem p hq))

theorem prefixesFor_latent : prefixesFor "latent_heat_flux" = ["LHTFLsfc", "LHFLX"] := by
  decide

theorem prefixesFor_precip :
    prefixesFor "precipitation_rate" = ["PRATEsfc", "surface_precipitation_rate"] := by
  decide

/-- C2 (main result): with mode `"advection_and_precipitation"`, a successful
stage 3 run scales the precipitation field uniformly by
`(mean(evap) − mean(twp_tendency)) / mean(precip)`, rewrites the advection
tendency pointwise as `twp_tendency − (evaporation − precipitation_new)`,
and the resulting global means balance:
`mean(twp_tendency) = mean(evap) − mean(precip_new)` (exactly, in the
rational model). -/
theorem C2_force_conserve_moisture_adv_precip {ι : Type} [Fintype ι]
    (input_data gen_data out : FieldMap ι) (area : Tensor ι) (ak bk : List ℚ)
    (gtwp itwp evap precip : Tensor ι)
    (h : force_conserve_moisture input_data gen_data area ak bk
      "advection_and_precipitation" = .ok out)
    (hg : cdTotalWaterPath gen_data ak bk = .ok gtwp)
    (hi : cdTotalWaterPath input_data ak bk = .ok itwp)
    (hev : cdEvaporationRate gen_data = .ok evap)
    (hpr : cdGet gen_data "precipitation_rate" = .ok precip)
    (harea : (∑ i, area i) ≠ 0)
    (hpm : weighted_mean precip area ≠ 0) :
    cdGet out "precipitation_rate" = .ok (fun i => precip i *
        ((weighted_mean evap area
            - weighted_mean (fun j => (gtwp j - itwp j) / TIMESTEP_SECONDS) area)
          / weighted_mean precip area)) ∧
    cdGet out "tendency_of_total_water_path_due_to_advection" = .ok (fun i =>
        (gtwp i - itwp i) / TIMESTEP_SECONDS
          - (evap i - precip i *
              ((weighted_mean evap area
                  - weighted_mean (fun j => (gtwp j - itwp j) / TIMESTEP_SECONDS) area)
                / weighted_mean precip area))) ∧
    weighted_mean (fun i => (gtwp i - itwp i) / TIMESTEP_SECONDS) area
      = weighted_mean evap area
        - weighted_mean (fun i => precip i *
            ((weighted_mean evap area
                - weighted_mean (fun j => (gtwp j - itwp j) / TIMESTEP_SECONDS) area)
              / weighted_mean precip area)) area := by
  unfold force_conserve_moisture at h
  simp only [hg, hi, hev, hpr] at h
  rw [if_pos (by decide :
    pyEndsWith "advection_and_precipitation" "precipitation" = true)] at h
  cases hb1 : cdSet gen_data "precipitation_rate" (fun i => precip i *
      ((weighted_mean evap area
          - weighted_mean (fun j => (gtwp j - itwp j) / TIMESTEP_SECONDS) area)
        / weighted_mean precip area)) with
  | error e => rw [hb1] at h; simp at h
  | ok gen_data1 =>
    rw [hb1] at h
    simp only [] at h
    rw [if_pos (by decide :
      pyStartsWith "advection_and_precipitation" "advection" = true)] at h
    -- the precipitation write leaves the latent-heat field untouched
    obtain ⟨kp, hkp, hkc, hout1, -⟩ := cdSetAux_ok gen_data "precipitation_rate" _
      (prefixesFor "precipitation_rate") _ hb1
    have hkp2 : kp = "PRATEsfc" ∨ kp = "surface_precipitation_rate" := by
      rw [prefixesFor_precip] at hkp
      simpa using hkp
    have hev1 : cdEvaporationRate gen_data1 = .ok evap := by
      unfold cdEvaporationRate at hev ⊢
      have hlat : cdGet gen_data1 "latent_heat_flux" = cdGet gen_data "latent_heat_flux" := by
        unfold cdGet
        rw [hout1]
        refine cdGetAux_fmInsert_ne gen_data "latent_heat_flux" kp _ _ ?_
        intro p hp
        rw [prefixesFor_latent] at hp
        rcases hkp2 with hk | hk <;> subst hk <;> simp at hp ⊢ <;>
          rcases hp with hp | hp <;> subst hp <;> decide
      rw [hlat]
      exact hev
    have hpr1 := cdSet_get _ _ _ _ hb1
    simp only [hev1, hpr1] at h
    refine ⟨?_, cdSet_get _ _ _ _ h, ?_⟩
    · -- advection write leaves precipitation untouched
      obtain ⟨ka, hka, hkac, hout2, -⟩ := cdSetAux_ok gen_data1
        "tendency_of_total_water_path_due_to_advection" _
        (prefixesFor "tendency_of_total_water_path_due_to_advection") _ h
      have hkae : ka = "tendency_of_total_water_path_due_to_advection" := by
        rw [prefixesFor_advection] at hka
        simpa using hka
      unfold cdGet
      rw [hout2, hkae]
      rw [cdGetAux_fmInsert_ne gen_data1 "precipitation_rate"
        "tendency_of_total_water_path_due_to_advection" _ _ ?_]
      · exact hpr1
      · intro p hp
        rw [prefixesFor_precip] at hp
        simp at hp
        rcases hp with hp | hp <;> subst hp <;> decide
    · rw [weighted_mean_mul_const precip area _, mul_comm (weighted_mean precip area),
        div_mul_cancel₀ _ hpm]
      ring

def c2Gen : FieldMap (Fin 1) :=
  [("specific_total_water_0", fun _ => 1/10), ("specific_total_water_1", fun _ => 1/5),
   ("PRESsfc", fun _ => 1000), ("LHTFLsfc", fun _ => 5000000),
   ("PRATEsfc", fun _ => 2), ("tendency_of_total_water_path_due_to_advection", fun _ => 5)]

def c2Input : FieldMap (Fin 1) :=
  [("PRESsfc", fun _ => 900), ("specific_total_water_0", fun _ => 1/20),
   ("specific_total_water_1", fun _ => 1/10)]

def c2Out : FieldMap (Fin 1) :=
  [("specific_total_water_0", fun _ => 1/10), ("specific_total_water_1", fun _ => 1/5),
   ("PRESsfc", fun _ => 1000), ("LHTFLsfc", fun _ => 5000000),
   ("PRATEsfc", fun _ => 7060913/3530394),
   ("tendency_of_total_water_path_due_to_advection", fun _ => 0)]

/-- C2 witness: stage 3 with mode `"advection_and_precipitation"` on a
concrete one-cell, two-level state. -/
theorem C2_witness :
    cdGet c2Out "precipitation_rate" = .ok (fun i => (fun _ : Fin 1 => (2:ℚ)) i *
        ((weighted_mean (fun _ : Fin 1 => (2:ℚ)) (fun _ => 1)
            - weighted_mean (fun j => ((fun _ : Fin 1 => (0:ℚ)) j
                - (fun _ : Fin 1 => (150000/196133:ℚ)) j) / TIMESTEP_SECONDS) (fun _ => 1))
          / weighted_mean (fun _ : Fin 1 => (2:ℚ)) (fun _ => 1))) ∧
    cdGet c2Out "tendency_of_total_water_path_due_to_advection" = .ok (fun i =>
        ((fun _ : Fin 1 => (0:ℚ)) i - (fun _ : Fin 1 => (150000/196133:ℚ)) i) / TIMESTEP_SECONDS
          - ((fun _ : Fin 1 => (2:ℚ)) i - (fun _ : Fin 1 => (2:ℚ)) i *
              ((weighted_mean (fun _ : Fin 1 => (2:ℚ)) (fun _ => 1)
                  - weighted_mean (fun j => ((fun _ : Fin 1 => (0:ℚ)) j
                      - (fun _ : Fin 1 => (150000/196133:ℚ)) j) / TIMESTEP_SECONDS) (fun _ => 1))
                / weighted_mean (fun _ : Fin 1 => (2:ℚ)) (fun _ => 1)))) ∧
    weighted_mean (fun i => ((fun _ : Fin 1 => (0:ℚ)) i
        - (fun _ : Fin 1 => (150000/196133:ℚ)) i) / TIMESTEP_SECONDS) (fun _ => 1)
      = weighted_mean (fun _ : Fin 1 => (2:ℚ)) (fun _ => 1)
        - weighted_mean (fun i => (fun _ : Fin 1 => (2:ℚ)) i *
            ((weighted_mean (fun _ : Fin 1 => (2:ℚ)) (fun _ => 1)
                - weighted_mean (fun j => ((fun _ : Fin 1 => (0:ℚ)) j
                    - (fun _ : Fin 1 => (150000/196133:ℚ)) j) / TIMESTEP_SECONDS) (fun _ => 1))
              / weighted_mean (fun _ : Fin 1 => (2:ℚ)) (fun _ => 1))) (fun _ => 1) :=
  C2_force_conserve_moisture_adv_precip c2Input c2Gen c2Out (fun _ => 1) [0,500,1000] [1,1/2,0]
    (fun _ => 0) (fun _ => 150000/196133) (fun _ => 2) (fun _ => 2)
    (by norm_num +decide [force_conserve_moisture, cdTotalWaterPath, cdEvaporationRate,
      cdWaterNames, extractLevelsNames, extractPrefixNames, prefixesFor,
      CLIMATE_FIELD_NAME_PREFIXES, c2Gen, c2Input, c2Out, fmKeys, natural_sort, naturalInsert,
      naturalLess, keyLess, chunkLess, alphanum_key, reSplitDigits, chunkRuns, digitsToNat,
      cdGet, cdGetAux, cdSet, cdSetAux, fmInsert, fmContains, fmLookup, stackLevels,
      vertical_integral, listDiff, GRAVITY, weighted_mean, pyStartsWith, pyEndsWith, pyLower,
      pyStrLess, charListLess, TIMESTEP_SECONDS, LATENT_HEAT_OF_VAPORIZATION])
    (by norm_num +decide [cdTotalWaterPath, cdWaterNames, extractLevelsNames,
      extractPrefixNames, prefixesFor, CLIMATE_FIELD_NAME_PREFIXES, c2Gen, fmKeys,
      natural_sort, naturalInsert, naturalLess, keyLess, chunkLess, alphanum_key,
      reSplitDigits, chunkRuns, digitsToNat, cdGet, cdGetAux, fmLookup, stackLevels,
      vertical_integral, listDiff, GRAVITY, pyStartsWith, pyLower, pyStrLess, charListLess])
    (by norm_num +decide [cdTotalWaterPath, cdWaterNames, extractLevelsNames,
      extractPrefixNames, prefixesFor, CLIMATE_FIELD_NAME_PREFIXES, c2Input, fmKeys,
      natural_sort, naturalInsert, naturalLess, keyLess, chunkLess, alphanum_key,
      reSplitDigits, chunkRuns, digitsToNat, cdGet, cdGetAux, fmLookup, stackLevels,
      vertical_integral, listDiff, GRAVITY, pyStartsWith, pyLower, pyStrLess, charListLess])
    (by norm_num +decide [cdEvaporationRate, cdGet, cdGetAux, prefixesFor,
      CLIMATE_FIELD_NAME_PREFIXES, c2Gen, fmLookup, LATENT_HEAT_OF_VAPORIZATION])
    (by norm_num +decide [cdGet, cdGetAux, prefixesFor, CLIMATE_FIELD_NAME_PREFIXES,
      c2Gen, fmLookup])
    (by norm_num)
    (by norm_num [weighted_mean])

/-! ## C10: the None-check in the dry-air stage is unreachable -/

theorem cdGetAux_error {ι : Type} (m : FieldMap ι) (name : String) (e : PyErr) :
    ∀ ps : List String, cdGetAux m name ps = .error e → e = .keyError name
  | [], h => by
    simp [cdGetAux] at h
    exact h.symm
  | p :: rest, h => by
    simp only [cdGetAux] at h
    cases hl : fmLookup m p with
    | some v => rw [hl] at h; exact absurd h (by simp)
    | none =>
      rw [hl] at h
      exact cdGetAux_error m name e rest h

theorem cdSetAux_error {ι : Type} (m : FieldMap ι) (name : String) (v : Tensor ι)
    (e : PyErr) : ∀ ps : List String, cdSetAux m name v ps = .error e → e = .keyError name
  | [], h => by
    simp [cdSetAux] at h
    exact h.symm
  | p :: rest, h => by
    by_cases hc : fmContains m p
    · simp [cdSetAux, hc] at h
    · simp only [cdSetAux, hc, if_false] at h
      exact cdSetAux_error m name v e rest h

theorem extractLevelsNames_error {ι : Type} (m : FieldMap ι) (canonical : String)
    (e : PyErr) : ∀ ps : List String,
      extractLevelsNames m canonical ps = .error e → e = .keyError canonical
  | [], h => by
    simp [extractLevelsNames] at h
    exact h.symm
  | p :: rest, h => by
    simp only [extractLevelsNames] at h
    cases hx : extractPrefixNames (ι := ι) m p with
    | ok names => rw [hx] at h; exact absurd h (by simp)
    | error e' =>
      rw [hx] at h
      exact extractLevelsNames_error m canonical e rest h

theorem spdda_error {ι : Type} (m : FieldMap ι) (ak bk : List ℚ) (e : PyErr)
    (h : cdSurfacePressureDueToDryAir m ak bk = .error e) :
    (∃ s, e = .keyError s) ∨
      e = .valueError "Number of vertical levels in ak, bk, and specific_total_water mustbe the same." := by
  unfold cdSurfacePressureDueToDryAir at h
  cases hw : cdWaterNames m with
  | error e' =>
    rw [hw] at h
    simp only [] at h
    injection h with h
    exact .inl ⟨"specific_total_water", by
      rw [← h]
      exact extractLevelsNames_error m "specific_total_water" e' _ hw⟩
  | ok ns =>
    simp only [hw] at h
    cases hp : cdGet m "surface_pressure" with
    | error e' =>
      rw [hp] at h
      simp only [] at h
      injection h with h
      exact .inl ⟨"surface_pressure", by
        rw [← h]
        exact cdGetAux_error m "surface_pressure" e' _ hp⟩
    | ok ps =>
      simp only [hp] at h
      by_cases hc : ((ak.length : ℤ) - 1 ≠ (bk.length : ℤ) - 1 ∨
          (ak.length : ℤ) - 1 ≠ (ns.length : ℤ))
      · rw [if_pos hc] at h
        injection h with h
        exact .inr h.symm
      · rw [if_neg hc] at h
        exact absurd h (by simp)

/-- C10: the explicit `input.surface_pressure is None` check in
`_force_conserve_dry_air` is unreachable.  (i) `ClimateData.surface_pressure`
never yields a Python `None`: it either returns a tensor of the mapping or
raises `KeyError`.  (ii) Consequently the function never raises the
`ValueError("surface_pressure is required to force dry air conservation")`
of that branch.  (iii) When no surface-pressure alias is a key of the input
mapping, the failure surfaces as `KeyError("surface_pressure")` from alias
resolution instead. -/
theorem C10_none_check_unreachable {ι : Type} [Fintype ι]
    (input_data gen_data : FieldMap ι) (area : Tensor ι) (ak bk : List ℚ) :
    ((∃ t, cdGet input_data "surface_pressure" = .ok t ∧ tensorIsNone t = false) ∨
      cdGet input_data "surface_pressure" = .error (.keyError "surface_pressure")) ∧
    force_conserve_dry_air input_data gen_data area ak bk
      ≠ .error (.valueError "surface_pressure is required to force dry air conservation") ∧
    ((fmContains input_data "PRESsfc" = false ∧ fmContains input_data "PS" = false) →
      force_conserve_dry_air input_data gen_data area ak bk
        = .error (.keyError "surface_pressure")) := by
  refine ⟨?_, ?_, ?_⟩
  · cases hip : cdGet input_data "surface_pressure" with
    | error e =>
      have he := cdGetAux_error input_data "surface_pressure" e _ hip
      exact .inr (by rw [he])
    | ok t => exact .inl ⟨t, rfl, rfl⟩
  · intro hcontra
    unfold force_conserve_dry_air at hcontra
    cases hip : cdGet input_data "surface_pressure" with
    | error e =>
      have he := cdGetAux_error input_data "surface_pressure" e _ hip
      simp only [hip] at hcontra
      rw [he] at hcontra
      simp at hcontra
    | ok ips =>
      simp only [hip] at hcontra
      rw [if_neg (by simp [tensorIsNone] : ¬ (tensorIsNone ips = true))] at hcontra
      cases hgda : cdSurfacePressureDueToDryAir gen_data ak bk with
      | error e =>
        simp only [hgda] at hcontra
        rcases spdda_error gen_data ak bk e hgda with ⟨s, hs⟩ | hs <;>
          rw [hs] at hcontra <;> simp at hcontra
      | ok genDA =>
        simp only [hgda] at hcontra
        cases hida : cdSurfacePressureDueToDryAir input_data ak bk with
        | error e =>
          simp only [hida] at hcontra
          rcases spdda_error input_data ak bk e hida with ⟨s, hs⟩ | hs <;>
            rw [hs] at hcontra <;> simp at hcontra
        | ok inDA =>
          simp only [hida] at hcontra
          cases hwn : cdWaterNames gen_data with
          | error e =>
            simp only [hwn] at hcontra
            simp at hcontra
          | ok ns =>
            simp only [hwn] at hcontra
            cases hset : cdSet gen_data "surface_pressure" (fun i =>
                ((fun i => genDA i - (weighted_mean genDA area - weighted_mean inDA area)) i
                    + (List.zipWith (· * ·) (listDiff ak) (stackLevels gen_data ns i)).sum) /
                  (1 - (List.zipWith (· * ·) (listDiff bk) (stackLevels gen_data ns i)).sum)) with
            | error e =>
              have he := cdSetAux_error gen_data "surface_pressure" _ e _ hset
              simp only [hset] at hcontra
              rw [he] at hcontra
              simp at hcontra
            | ok o =>
              simp only [hset] at hcontra
              simp at hcontra
  · rintro ⟨h1, h2⟩
    have hl1 : fmLookup input_data "PRESsfc" = none := by
      cases hl : fmLookup input_data "PRESsfc" with
      | none => rfl
      | some t =>
        exact absurd ((fmContains_iff_lookup_isSome input_data "PRESsfc").mpr (by simp [hl]))
          (by simp [h1])
    have hl2 : fmLookup input_data "PS" = none := by
      cases hl : fmLookup input_data "PS" with
      | none => rfl
      | some t =>
        exact absurd ((fmContains_iff_lookup_isSome input_data "PS").mpr (by simp [hl]))
          (by simp [h2])
    have hget : cdGet input_data "surface_pressure" = .error (.keyError "surface_pressure") := by
      unfold cdGet
      rw [prefixesFor_surface_pressure]
      simp [cdGetAux, hl1, hl2]
    unfold force_conserve_dry_air
    simp [hget]

def c10Input : FieldMap (Fin 1) := [("T", fun _ => 1)]

/-- C10 witness: an input with no surface-pressure alias makes the dry-air
stage fail with `KeyError("surface_pressure")`, not the ValueError of the
None-check branch. -/
theorem C10_witness :
    ((∃ t, cdGet c10Input "surface_pressure" = .ok t ∧ tensorIsNone t = false) ∨
      cdGet c10Input "surface_pressure" = .error (.keyError "surface_pressure")) ∧
    force_conserve_dry_air c10Input [("PRESsfc", fun _ => (1:ℚ))] (fun _ => 1) [0,1] [1,0]
      ≠ .error (.valueError "surface_pressure is required to force dry air conservation") ∧
    force_conserve_dry_air c10Input [("PRESsfc", fun _ => (1:ℚ))] (fun _ => 1) [0,1] [1,0]
      = .error (.keyError "surface_pressure") :=
  have h := C10_none_check_unreachable c10Input [("PRESsfc", fun _ => (1:ℚ))]
    (fun _ => 1) [0,1] [1,0]
  ⟨h.1, h.2.1, h.2.2 (by constructor <;> simp [c10Input, fmContains])⟩

/-! ## C4: ClimateData construction and setter semantics

`ClimateData.__init__` stores `self._data = dict(climate_data)`
(climate_data.py line 66): the constructor builds a NEW dict object holding
the same entries (a shallow copy; the tensors themselves are shared).  To
make the object-identity consequences provable, Python dict objects live in
an explicit heap (a list of dicts addressed by allocation index), and
`dict(...)` allocates a fresh cell. -/

abbrev Heap (ι : Type) := List (FieldMap ι)

def heapGet {ι : Type} : Heap ι → ℕ → FieldMap ι
  | [], _ => []
  | x :: _, 0 => x
  | _ :: rest, r + 1 => heapGet rest r

def heapSet {ι : Type} : Heap ι → ℕ → FieldMap ι → Heap ι
  | [], _, _ => []
  | _ :: rest, 0, m => m :: rest
  | x :: rest, r + 1, m => x :: heapSet rest r m

/-- Allocate a fresh dict object; returns the heap and the new reference. -/
def heapAlloc {ι : Type} (h : Heap ι) (m : FieldMap ι) : Heap ι × ℕ :=
  (h ++ [m], h.length)

/-- `ClimateData.__init__` on a caller-owned dict at `mref`:
`self._data = dict(climate_data)` allocates a fresh dict with the same
entries and keeps a reference to the fresh one only. -/
def climateDataInit {ι : Type} (h : Heap ι) (mref : ℕ) : Heap ι × ℕ :=
  heapAlloc h (heapGet h mref)

/-- A write through a ClimateData alias setter (`ClimateData._set`, e.g.
the `surface_pressure` / `precipitation_rate` /
`tendency_of_total_water_path_due_to_advection` setters): mutates the dict
object referenced by `self._data` in place. -/
def climateDataSetField {ι : Type} (h : Heap ι) (selfRef : ℕ) (name : String)
    (v : Tensor ι) : Except PyErr (Heap ι) :=
  match cdSet (heapGet h selfRef) name v with
  | .error e => .error e
  | .ok d => .ok (heapSet h selfRef d)

theorem heapGet_append_left {ι : Type} : ∀ (h l : Heap ι) (r : ℕ), r < h.length →
    heapGet (h ++ l) r = heapGet h r
  | [], _, _, hr => by simp at hr
  | x :: rest, l, 0, _ => rfl
  | x :: rest, l, r + 1, hr =>
    heapGet_append_left rest l r (by simpa using hr)

theorem heapGet_heapSet_self {ι : Type} : ∀ (h : Heap ι) (r : ℕ) (m : FieldMap ι),
    r < h.length → heapGet (heapSet h r m) r = m
  | [], _, _, hr => by simp at hr
  | x :: rest, 0, m, _ => rfl
  | x :: rest, r + 1, m, hr =>
    heapGet_heapSet_self rest r m (by simpa using hr)

theorem heapGet_heapSet_ne {ι : Type} : ∀ (h : Heap ι) (i j : ℕ) (m : FieldMap ι),
    i ≠ j → heapGet (heapSet h i m) j = heapGet h j
  | [], _, _, _, _ => rfl
  | x :: rest, 0, 0, m, hij => absurd rfl hij
  | x :: rest, 0, j + 1, m, _ => rfl
  | x :: rest, i + 1, 0, m, _ => rfl
  | x :: rest, i + 1, j + 1, m, hij =>
    heapGet_heapSet_ne rest i j m (fun he => hij (by rw [he]))

/-- C4 (amended): a ClimateData setter does NOT mutate the caller's mapping.
After `cd = ClimateData(m); cd.<field> = v`, the caller's dict is unchanged
and only the view's private dict (reachable through `cd.data`) holds the
new value. -/
theorem C4_setter_mutates_copy_not_caller {ι : Type} (h : Heap ι) (mref : ℕ)
    (hvalid : mref < h.length) (name : String) (v : Tensor ι) (h2 : Heap ι)
    (hset : climateDataSetField (climateDataInit h mref).1 (climateDataInit h mref).2
      name v = .ok h2) :
    heapGet h2 mref = heapGet h mref ∧
    ∃ d, cdSet (heapGet h mref) name v = .ok d ∧
      heapGet h2 (climateDataInit h mref).2 = d := by
  unfold climateDataInit heapAlloc at hset ⊢
  unfold climateDataSetField at hset
  rw [show heapGet (h ++ [heapGet h mref]) h.length = heapGet h mref by
    have : ∀ (l : Heap ι) (x : FieldMap ι), heapGet (l ++ [x]) l.length = x := by
      intro l x
      induction l with
      | nil => rfl
      | cons y ys ih => simpa using ih
    exact this h (heapGet h mref)] at hset
  cases hcd : cdSet (heapGet h mref) name v with
  | error e => rw [hcd] at hset; exact absurd hset (by simp)
  | ok d =>
    rw [hcd] at hset
    simp only [Except.ok.injEq] at hset
    subst hset
    refine ⟨?_, d, rfl, ?_⟩
    · rw [heapGet_heapSet_ne _ _ _ _ (fun he => absurd (he ▸ hvalid) (lt_irrefl _))]
      exact heapGet_append_left h _ mref hvalid
    · exact heapGet_heapSet_self _ _ _ (by simp)

def c4Heap : Heap (Fin 1) := [[("PRESsfc", fun _ => 0)]]

/-- C4 counterexample: writing `surface_pressure` through
`ClimateData([("PRESsfc", 0)])` does not expose the new tensor in the
caller's mapping, contradicting the claim that the caller's mapping is
mutated in place. -/
theorem C4_counterexample :
    climateDataSetField (climateDataInit c4Heap 0).1 (climateDataInit c4Heap 0).2
        "surface_pressure" (fun _ => 1)
      = .ok [[("PRESsfc", fun _ => 0)], [("PRESsfc", fun _ => 1)]] ∧
    ¬ (fmLookup (heapGet ([[("PRESsfc", fun _ => (0:ℚ))], [("PRESsfc", fun _ => 1)]] :
        Heap (Fin 1)) 0) "PRESsfc" = some (fun _ => 1)) := by
  constructor
  · norm_num +decide [climateDataSetField, climateDataInit, heapAlloc, heapGet, heapSet,
      cdSet, cdSetAux, prefixesFor, CLIMATE_FIELD_NAME_PREFIXES, c4Heap, fmContains,
      fmInsert]
  · intro hcontra
    simp [heapGet, fmLookup] at hcontra
    have h0 := congrFun hcontra 0
    norm_num at h0

/-- C4 witness for the amended theorem, at the counterexample's input. -/
theorem C4_witness :
    heapGet ([[("PRESsfc", fun _ => (0:ℚ))], [("PRESsfc", fun _ => 1)]] : Heap (Fin 1)) 0
        = heapGet c4Heap 0 ∧
    ∃ d, cdSet (heapGet c4Heap 0) "surface_pressure" (fun _ => (1:ℚ)) = .ok d ∧
      heapGet ([[("PRESsfc", fun _ => (0:ℚ))], [("PRESsfc", fun _ => 1)]] : Heap (Fin 1))
        (climateDataInit c4Heap 0).2 = d :=
  C4_setter_mutates_copy_not_caller c4Heap 0 (by norm_num [c4Heap]) "surface_pressure"
    (fun _ => 1) [[("PRESsfc", fun _ => 0)], [("PRESsfc", fun _ => 1)]]
    (by norm_num +decide [climateDataSetField, climateDataInit, heapAlloc, heapGet, heapSet,
      cdSet, cdSetAux, prefixesFor, CLIMATE_FIELD_NAME_PREFIXES, c4Heap, fmContains,
      fmInsert])

/-! ## Packer (src/utilities/packer.py)

Multidimensional torch tensors are modelled as finitely-branching rose
trees of rationals; `torch.stack(ts, dim=a)` inserts a new axis at
(nonnegative, already-normalized) position `a`, and
`tensor.select(a, i)` removes axis `a` at index `i`.  Shape mismatches,
which make torch raise, are modelled as `none`. -/

inductive NDT where
  | scalar : ℚ → NDT
  | arr : List NDT → NDT

/-- `t.shape == s` for a shape list `s` (length = ndim). -/
def hasShape : List ℕ → NDT → Bool
  | [], .scalar _ => true
  | [], .arr _ => false
  | _ :: _, .scalar _ => false
  | n :: s, .arr xs => xs.length == n && xs.all (fun x => hasShape s x)

def optMapM {α β : Type} (f : α → Option β) : List α → Option (List β)
  | [] => some []
  | x :: xs =>
    match f x, optMapM f xs with
    | some y, some ys => some (y :: ys)
    | _, _ => none

def unArr : NDT → Option (List NDT)
  | .arr xs => some xs
  | .scalar _ => none

/-- The children of an array node (used to state what `stack` computes). -/
def childrenOf : NDT → List NDT
  | .arr xs => xs
  | .scalar _ => []

/-- `torch.stack(ts, dim=axis)`.  Inserting at axis `a+1` recurses into the
children (transposition); ragged children produce `none` where torch
raises.  (At axis 0 torch additionally requires all shapes equal; the
round-trip theorems only use `stack` under that hypothesis.) -/
def headLen : List (List NDT) → ℕ
  | [] => 0
  | r :: _ => r.length

def stack : ℕ → List NDT → Option NDT
  | 0, ts => some (.arr ts)
  | a + 1, ts =>
    match optMapM unArr ts with
    | none => none
    | some rows =>
      if rows.all (fun r => r.length = headLen rows) then
        match optMapM (fun j => stack a (rows.map (fun r => r.getD j (.scalar 0))))
            (List.range (headLen rows)) with
        | some cols => some (.arr cols)
        | none => none
      else none

/-- The value `stack` computes on well-shaped input (total companion). -/
def stackT : ℕ → List NDT → NDT
  | 0, ts => .arr ts
  | a + 1, ts =>
    .arr ((List.range (headLen (ts.map childrenOf))).map
      (fun j => stackT a ((ts.map childrenOf).map (fun r => r.getD j (.scalar 0)))))

/-- `tensor.select(dim=axis, index=i)`. -/
def select : ℕ → ℕ → NDT → Option NDT
  | 0, i, .arr xs => xs[i]?
  | a + 1, i, .arr xs =>
    match optMapM (select a i) xs with
    | some ys => some (.arr ys)
    | none => none
  | _, _, .scalar _ => none

theorem optMapM_eq_some_map {α β : Type} (f : α → Option β) (g : α → β) :
    ∀ l : List α, (∀ x ∈ l, f x = some (g x)) → optMapM f l = some (l.map g)
  | [], _ => rfl
  | x :: xs, h => by
    simp only [optMapM, h x (List.mem_cons_self x xs),
      optMapM_eq_some_map f g xs (fun y hy => h y (List.mem_cons_of_mem x hy))]
    rfl

theorem getD_range_map {α : Type} (d : α) :
    ∀ l : List α, (List.range l.length).map (fun j => l.getD j d) = l
  | [] => rfl
  | x :: xs => by
    rw [List.length_cons, List.range_succ_eq_map, List.map_cons, List.map_map]
    simp only [List.getD_cons_zero, Function.comp_def, Nat.succ_eq_add_one,
      List.getD_cons_succ]
    rw [getD_range_map d xs]

theorem hasShape_cons_iff (n : ℕ) (s : List ℕ) (t : NDT) :
    hasShape (n :: s) t = true ↔
      ∃ xs, t = .arr xs ∧ xs.length = n ∧ ∀ x ∈ xs, hasShape s x = true := by
  cases t with
  | scalar q => simp [hasShape]
  | arr xs =>
    simp only [hasShape, Bool.and_eq_true, beq_iff_eq, List.all_eq_true, NDT.arr.injEq]
    constructor
    · rintro ⟨hlen, hall⟩
      exact ⟨xs, rfl, hlen, hall⟩
    · rintro ⟨xs', hx, hlen, hall⟩
      cases hx
      exact ⟨hlen, hall⟩

theorem optMapM_map {α β γ : Type} (f : β → Option γ) (g : α → β) :
    ∀ l : List α, optMapM f (l.map g) = optMapM (fun x => f (g x)) l
  | [] => rfl
  | x :: xs => by
    simp only [List.map_cons, optMapM, optMapM_map f g xs]

theorem getD_mem {α : Type} (d : α) : ∀ (l : List α) (j : ℕ), j < l.length → l.getD j d ∈ l
  | [], _, h => absurd h (by simp)
  | x :: xs, 0, _ => List.mem_cons_self _ _
  | x :: xs, j + 1, h => List.mem_cons_of_mem x (getD_mem d xs j (by simpa using h))

theorem getElem?_some_mem {α : Type} : ∀ (l : List α) (i : ℕ) (x : α),
    l[i]? = some x → x ∈ l
  | [], i, x, h => by simp at h
  | y :: ys, 0, x, h => by
    simp at h
    exact h ▸ List.mem_cons_self _ _
  | y :: ys, i + 1, x, h => by
    simp only [List.getElem?_cons_succ] at h
    exact List.mem_cons_of_mem y (getElem?_some_mem ys i x h)

/-- On uniformly-shaped input with a valid axis, `stack` succeeds and
computes `stackT`. -/
theorem stack_eq_stackT : ∀ (a : ℕ) (s : List ℕ) (ts : List NDT),
    (∀ t ∈ ts, hasShape s t = true) → a ≤ s.length →
    stack a ts = some (stackT a ts)
  | 0, _, ts, _, _ => rfl
  | a + 1, s, ts, hsh, hax => by
    cases s with
    | nil => simp at hax
    | cons n s' =>
      have hdest : ∀ t ∈ ts, ∃ xs, t = .arr xs ∧ xs.length = n ∧
          ∀ x ∈ xs, hasShape s' x = true :=
        fun t ht => (hasShape_cons_iff n s' t).mp (hsh t ht)
      have hun : optMapM unArr ts = some (ts.map childrenOf) := by
        apply optMapM_eq_some_map
        intro t ht
        obtain ⟨xs, rfl, -, -⟩ := hdest t ht
        rfl
      have hrlen : ∀ r ∈ ts.map childrenOf, r.length = n := by
        intro r hr
        obtain ⟨t, ht, rfl⟩ := List.mem_map.mp hr
        obtain ⟨xs, rfl, hl, -⟩ := hdest t ht
        exact hl
      have hhead : ∀ j ∈ List.range (headLen (ts.map childrenOf)), j < n := by
        intro j hj
        rw [List.mem_range] at hj
        cases hts : ts.map childrenOf with
        | nil => rw [hts] at hj; simp [headLen] at hj
        | cons r rest =>
          rw [hts] at hj
          simp only [headLen] at hj
          have := hrlen r (hts ▸ List.mem_cons_self r rest)
          omega
      have hcolshape : ∀ j ∈ List.range (headLen (ts.map childrenOf)),
          ∀ x ∈ (ts.map childrenOf).map (fun r => r.getD j (.scalar 0)),
            hasShape s' x = true := by
        intro j hj x hx
        obtain ⟨r, hr, rfl⟩ := List.mem_map.mp hx
        obtain ⟨t, ht, rfl⟩ := List.mem_map.mp hr
        obtain ⟨xs, rfl, hl, hsh'⟩ := hdest t ht
        refine hsh' _ (getD_mem _ _ _ ?_)
        have := hhead j hj
        show j < xs.length
        omega
      unfold stack
      simp only [hun]
      rw [if_pos (by
        rw [List.all_eq_true]
        intro r hr
        simp only [decide_eq_true_eq]
        rw [hrlen r hr]
        cases hts : ts.map childrenOf with
        | nil => rw [hts] at hr; simp at hr
        | cons r0 rest =>
          simp only [headLen]
          exact (hrlen r0 (by rw [hts]; exact List.mem_cons_self r0 rest)).symm)]
      rw [optMapM_eq_some_map _
        (fun j => stackT a ((ts.map childrenOf).map (fun r => r.getD j (.scalar 0)))) _
        (fun j hj => stack_eq_stackT a s'
          ((ts.map childrenOf).map (fun r => r.getD j (.scalar 0)))
          (hcolshape j hj) (by simpa using hax))]
      rfl

/-- Selecting index `i` along the stacking axis recovers the `i`-th input. -/
theorem select_stackT : ∀ (a : ℕ) (s : List ℕ) (ts : List NDT),
    (∀ t ∈ ts, hasShape s t = true) → a ≤ s.length →
    ∀ (i : ℕ) (t : NDT), ts[i]? = some t → select a i (stackT a ts) = some t
  | 0, _, ts, _, _, i, t, hit => by simp [stackT, select, hit]
  | a + 1, s, ts, hsh, hax, i, t, hit => by
    cases s with
    | nil => simp at hax
    | cons n s' =>
      have hdest : ∀ t ∈ ts, ∃ xs, t = .arr xs ∧ xs.length = n ∧
          ∀ x ∈ xs, hasShape s' x = true :=
        fun t ht => (hasShape_cons_iff n s' t).mp (hsh t ht)
      have htmem : t ∈ ts := getElem?_some_mem ts i t hit
      obtain ⟨ri, hti, hrilen, hrish⟩ := hdest t htmem
      have hrlen : ∀ r ∈ ts.map childrenOf, r.length = n := by
        intro r hr
        obtain ⟨t', ht', rfl⟩ := List.mem_map.mp hr
        obtain ⟨xs, rfl, hl, -⟩ := hdest t' ht'
        exact hl
      have hn0 : headLen (ts.map childrenOf) = n := by
        cases hts : ts.map childrenOf with
        | nil =>
          exfalso
          have : ts = [] := by
            cases ts with
            | nil => rfl
            | cons a b => simp at hts
          rw [this] at hit
          simp at hit
        | cons r rest =>
          simp only [headLen]
          exact hrlen r (hts ▸ List.mem_cons_self r rest)
      have hcolshape : ∀ j ∈ List.range n,
          ∀ x ∈ (ts.map childrenOf).map (fun r => r.getD j (.scalar 0)),
            hasShape s' x = true := by
        intro j hj x hx
        rw [List.mem_range] at hj
        obtain ⟨r, hr, rfl⟩ := List.mem_map.mp hx
        obtain ⟨t', ht', rfl⟩ := List.mem_map.mp hr
        obtain ⟨xs, rfl, hl, hsh'⟩ := hdest t' ht'
        refine hsh' _ (getD_mem _ _ _ ?_)
        show j < xs.length
        omega
      have hsel : ∀ j ∈ List.range n,
          select a i (stackT a ((ts.map childrenOf).map (fun r => r.getD j (.scalar 0))))
            = some (ri.getD j (.scalar 0)) := by
        intro j hj
        refine select_stackT a s' _ (hcolshape j hj) (by simpa using hax) i _ ?_
        rw [List.getElem?_map, List.getElem?_map, hit]
        simp [hti, childrenOf]
      unfold stackT
      rw [hn0]
      unfold select
      rw [optMapM_map, optMapM_eq_some_map _ (fun j => ri.getD j (.scalar 0)) _ hsel]
      show some (.arr ((List.range n).map (fun j => ri.getD j (.scalar 0)))) = some t
      rw [show (List.range n).map (fun j => ri.getD j (.scalar 0)) = ri from by
        rw [← hrilen]
        exact getD_range_map _ ri]
      rw [hti]

/-- A named mapping of multidimensional tensors (`Dict[str, torch.Tensor]`)
for the Packer. -/
abbrev NDTMap := List (String × NDT)

def ndtLookup (m : NDTMap) (k : String) : Option NDT :=
  match m with
  | [] => none
  | (k', v) :: rest => if k' = k then some v else ndtLookup rest k

/-- `[tensors[n] for n in names]`: a missing declared name is a KeyError. -/
def packList (tensors : NDTMap) : List String → Except PyErr (List NDT)
  | [] => .ok []
  | n :: ns =>
    match ndtLookup tensors n with
    | none => .error (.keyError n)
    | some t =>
      match packList tensors ns with
      | .ok ts => .ok (t :: ts)
      | .error e => .error e

/-- `_pack(tensors, names, axis) = torch.stack([tensors[n] for n in names],
dim=axis)` (packer.py lines 70-72); `Packer.pack` forwards to it with the
resolved axis (already normalized to a nonnegative position). -/
def Packer_pack (names : List String) (tensors : NDTMap) (axis : ℕ) : Except PyErr NDT :=
  match packList tensors names with
  | .error e => .error e
  | .ok ts =>
    match stack axis ts with
    | some t => .ok t
    | none => .error (.runtimeError "stack expects each tensor to be equal size")

/-- The dict comprehension of `_unpack` (packer.py lines 75-77), iterating
`enumerate(names)` from index `i`: each entry is
`tensor.select(axis, index=i)`. -/
def unpackAux (t : NDT) (axis : ℕ) : List String → ℕ → Except PyErr NDTMap
  | [], _ => .ok []
  | n :: ns, i =>
    match select axis i t with
    | none => .error (.indexError "select")
    | some u =>
      match unpackAux t axis ns (i + 1) with
      | .ok rest => .ok ((n, u) :: rest)
      | .error e => .error e

/-- `_unpack(tensor, names, axis)`; `Packer.unpack` wraps the resulting
dict in a TensorDict (a container with the same mapping semantics) and
`Packer.unpack_simple` returns it as-is. -/
def Packer_unpack (names : List String) (t : NDT) (axis : ℕ) : Except PyErr NDTMap :=
  unpackAux t axis names 0

def ndtValOf (d : NDTMap) (n : String) : NDT := (ndtLookup d n).getD (.scalar 0)

theorem ndtLookup_some_mem : ∀ (d : NDTMap) (n : String) (t : NDT),
    ndtLookup d n = some t → (n, t) ∈ d
  | [], _, _, h => by simp [ndtLookup] at h
  | (k, v) :: rest, n, t, h => by
    simp only [ndtLookup] at h
    by_cases hk : k = n
    · rw [if_pos hk] at h
      injection h with h
      subst hk
      subst h
      exact List.mem_cons_self _ _
    · rw [if_neg hk] at h
      exact List.mem_cons_of_mem _ (ndtLookup_some_mem rest n t h)

theorem packList_eq_map (d : NDTMap) : ∀ names : List String,
    (∀ n ∈ names, (ndtLookup d n).isSome = true) →
    packList d names = .ok (names.map (ndtValOf d))
  | [], _ => rfl
  | n :: ns, h => by
    have hn := h n (List.mem_cons_self n ns)
    cases hl : ndtLookup d n with
    | none => rw [hl] at hn; simp at hn
    | some t =>
      simp only [packList, hl,
        packList_eq_map d ns (fun m hm => h m (List.mem_cons_of_mem n hm))]
      simp [ndtValOf, hl]

theorem unpackAux_eq_map (t : NDT) (axis : ℕ) (g : String → NDT) :
    ∀ (ns : List String) (i : ℕ),
    (∀ k (hk : k < ns.length), select axis (i + k) t = some (g (ns.get ⟨k, hk⟩))) →
    unpackAux t axis ns i = .ok (ns.map (fun n => (n, g n)))
  | [], _, _ => rfl
  | n :: ns', i, h => by
    have h0 := h 0 (by simp)
    simp only [Nat.add_zero, List.get] at h0
    have hrec := unpackAux_eq_map t axis g ns' (i + 1) (fun k hk => by
      have := h (k + 1) (by simpa using Nat.succ_lt_succ hk)
      simpa [Nat.add_assoc, Nat.add_comm 1 k] using this)
    simp only [unpackAux, h0, hrec]
    simp

theorem ndtLookup_map_pair (f : String → NDT) : ∀ (names : List String) (x : String),
    ndtLookup (names.map (fun n => (n, f n))) x
      = if x ∈ names then some (f x) else none
  | [], _ => by simp [ndtLookup]
  | n :: ns, x => by
    simp only [List.map_cons, ndtLookup]
    by_cases hx : n = x
    · subst hx
      simp
    · rw [if_neg hx, ndtLookup_map_pair f ns x]
      simp [Ne.symm hx, hx]

/-- C3 (main result): packing a mapping whose key set is exactly the
declared name list (all tensors of one shape `s`, any valid axis) and
unpacking along the same axis returns the same mapping, exactly. -/
theorem C3_pack_unpack_roundtrip (names : List String) (d : NDTMap) (s : List ℕ)
    (axis : ℕ)
    (hnames : ∀ n ∈ names, (ndtLookup d n).isSome = true)
    (hkeys : ∀ p ∈ d, p.1 ∈ names)
    (hshape : ∀ p ∈ d, hasShape s p.2 = true)
    (haxis : axis ≤ s.length) :
    ∃ packed unpacked, Packer_pack names d axis = .ok packed ∧
      Packer_unpack names packed axis = .ok unpacked ∧
      ∀ n, ndtLookup unpacked n = ndtLookup d n := by
  have hvshape : ∀ n ∈ names, hasShape s (ndtValOf d n) = true := by
    intro n hn
    have := hnames n hn
    cases hl : ndtLookup d n with
    | none => rw [hl] at this; simp at this
    | some t =>
      have hm := ndtLookup_some_mem d n t hl
      have := hshape (n, t) hm
      simpa [ndtValOf, hl] using this
  have hts_shape : ∀ t ∈ names.map (ndtValOf d), hasShape s t = true := by
    intro t ht
    obtain ⟨n, hn, rfl⟩ := List.mem_map.mp ht
    exact hvshape n hn
  have hpack : Packer_pack names d axis
      = .ok (stackT axis (names.map (ndtValOf d))) := by
    unfold Packer_pack
    rw [packList_eq_map d names hnames]
    simp only [stack_eq_stackT axis s (names.map (ndtValOf d)) hts_shape haxis]
  have hunpack : Packer_unpack names (stackT axis (names.map (ndtValOf d))) axis
      = .ok (names.map (fun n => (n, ndtValOf d n))) := by
    unfold Packer_unpack
    apply unpackAux_eq_map
    intro k hk
    simp only [Nat.zero_add]
    apply select_stackT axis s (names.map (ndtValOf d)) hts_shape haxis
    rw [List.getElem?_map]
    rw [List.getElem?_eq_getElem (by simpa using hk)]
    simp [List.get]
  refine ⟨_, _, hpack, hunpack, ?_⟩
  intro n
  rw [ndtLookup_map_pair]
  by_cases hn : n ∈ names
  · rw [if_pos hn]
    have := hnames n hn
    cases hl : ndtLookup d n with
    | none => rw [hl] at this; simp at this
    | some t => simp [ndtValOf, hl]
  · rw [if_neg hn]
    cases hl : ndtLookup d n with
    | none => rfl
    | some t =>
      have := hkeys (n, t) (ndtLookup_some_mem d n t hl)
      exact absurd this hn

def c3Map : NDTMap :=
  [("b", .arr [.scalar 3, .scalar 4]), ("a", .arr [.scalar 1, .scalar 2])]

/-- C3 witness: two names, shape-[2] tensors, stacking at axis 1. -/
theorem C3_witness :
    ∃ packed unpacked, Packer_pack ["a", "b"] c3Map 1 = .ok packed ∧
      Packer_unpack ["a", "b"] packed 1 = .ok unpacked ∧
      ∀ n, ndtLookup unpacked n = ndtLookup c3Map n :=
  C3_pack_unpack_roundtrip ["a", "b"] c3Map [2] 1
    (by decide) (by decide) (by decide) (by decide)

/-! ## C9: Packer.get_state reads a nonexistent attribute

Packer objects are modelled by their attribute dictionary.  `__init__`
(packer.py lines 21-32) sets `names`, `axis_pack` and `axis_unpack` — and
never an attribute called `axis` — while `get_state` (lines 56-60) builds
`a dict from self.names and self.axis`. -/

inductive PyAttr where
  | strList : List String → PyAttr
  | int : ℤ → PyAttr
  deriving DecidableEq, Repr

abbrev AttrDict := List (String × PyAttr)

/-- Python attribute access `self.<name>`: AttributeError when absent. -/
def getattr (self : AttrDict) (name : String) : Except PyErr PyAttr :=
  match self with
  | [] => .error (.attributeError name)
  | (k, v) :: rest => if k = name then .ok v else getattr rest name

/-- `Packer.__init__(names, axis, axis_pack, axis_unpack)` with the two
assert pairs of the source; on success the object's attributes are exactly
`names`, `axis_pack`, `axis_unpack`. -/
def packerInit (names : List String) (axis axis_pack axis_unpack : Option ℤ) :
    Except PyErr AttrDict :=
  match axis with
  | some a =>
    if axis_pack ≠ none then
      .error (.assertionError "Cannot specify both axis and axis_pack")
    else if axis_unpack ≠ none then
      .error (.assertionError "Cannot specify both axis and axis_unpack")
    else
      .ok [("names", .strList names), ("axis_pack", .int a), ("axis_unpack", .int a)]
  | none =>
    match axis_pack with
    | none => .error (.assertionError "Must specify either axis or axis_pack")
    | some ap =>
      match axis_unpack with
      | none => .error (.assertionError "Must specify either axis or axis_unpack")
      | some au =>
        .ok [("names", .strList names), ("axis_pack", .int ap),
          ("axis_unpack", .int au)]

/-- `Packer.get_state`: evaluates `self.names`, then `self.axis`. -/
def packerGetState (self : AttrDict) : Except PyErr (List (String × PyAttr)) :=
  match getattr self "names" with
  | .error e => .error e
  | .ok ns =>
    match getattr self "axis" with
    | .error e => .error e
    | .ok ax => .ok [("names", ns), ("axis", ax)]

/-- C9: every Packer constructed through `__init__` lacks an `axis`
attribute, so `get_state` always raises `AttributeError("axis")` — no
Packer can be serialized through `get_state`. -/
theorem C9_get_state_raises (names : List String)
    (axis axis_pack axis_unpack : Option ℤ) (self : AttrDict)
    (h : packerInit names axis axis_pack axis_unpack = .ok self) :
    packerGetState self = .error (.attributeError "axis") := by
  unfold packerInit at h
  cases axis with
  | some a =>
    cases axis_pack with
    | some ap => simp at h
    | none =>
      cases axis_unpack with
      | some au => simp at h
      | none =>
        simp only [ne_eq, not_true_eq_false, if_false, Except.ok.injEq] at h
        rw [← h]
        simp [packerGetState, getattr]
  | none =>
    cases axis_pack with
    | none => simp at h
    | some ap =>
      cases axis_unpack with
      | none => simp at h
      | some au =>
        simp only [Except.ok.injEq] at h
        rw [← h]
        simp [packerGetState, getattr]

/-- C9 witness: a Packer built with `axis=0` has no `axis` attribute and
`get_state` raises. -/
theorem C9_witness :
    packerGetState [("names", PyAttr.strList ["x"]), ("axis_pack", PyAttr.int 0),
        ("axis_unpack", PyAttr.int 0)]
      = .error (.attributeError "axis") :=
  C9_get_state_raises ["x"] (some 0) none none _ (by decide)

/-! ## Autoregressive stepper (src/ace_inference/core/stepper.py, run_on_batch)

Per-time field slices are opaque values of a type `α`; a batch tensor with
its leading time dimension is a `List α`.  Packing along the channel
dimension (`channel_dim = -3`, a new axis over equally-shaped slices) is
modelled as the ordered list of channels, exactly the structure
`torch.stack`/`select` provide (proved for the tensor model in the Packer
section).  Device/dtype transfers (`.to(...)`) are identity here.

The network `module`, the loss, the conservation loss, the optional
corrector and the optional ocean/prescriber are the injected capabilities
of `run_on_batch` and stay abstract.  The normalizer is modelled from the
spec: `src/ace_inference/core/normalizer.py` is not under the provided
sources, and the spec describes normalize/denormalize as per-field
transforms applied name-wise (spec sections 2 and 6); `normName` /
`denormName` are those per-field maps, applied elementwise over time. -/

abbrev SliceMap (α : Type) := List (String × α)
abbrev SeriesMap (α : Type) := List (String × List α)

def alistLookup {β : Type} (m : List (String × β)) (k : String) : Option β :=
  match m with
  | [] => none
  | (k', v) :: rest => if k' = k then some v else alistLookup rest k

def alistContains {β : Type} (m : List (String × β)) (k : String) : Bool :=
  match m with
  | [] => false
  | (k', _) :: rest => if k' = k then true else alistContains rest k

/-- A Python float that may be NaN (`torch.tensor(torch.nan)`): `none` is
NaN, and NaN is absorbing for addition. -/
abbrev PyFloat := Option ℚ

def pyAdd : PyFloat → PyFloat → PyFloat
  | some a, some b => some (a + b)
  | _, _ => none

structure StepperCfg (α : Type) where
  in_names : List String
  out_names : List String
  module : List α → List α
  normName : String → α → α
  denormName : String → α → α
  corrector : Option (SliceMap α → SliceMap α → Except PyErr (SliceMap α))
  ocean : Option (List String × (SliceMap α → SliceMap α → SliceMap α → SliceMap α))
  loss_obj : List α → List α → ℚ
  conservation_loss : SeriesMap α → List (String × PyFloat) × PyFloat

/-- `normalizer.normalize` over a full time-major batch. -/
def normalizeSeries {α : Type} (cfg : StepperCfg α) (d : SeriesMap α) : SeriesMap α :=
  d.map (fun p => (p.1, p.2.map (cfg.normName p.1)))

def normalizeSlice {α : Type} (cfg : StepperCfg α) (m : SliceMap α) : SliceMap α :=
  m.map (fun p => (p.1, cfg.normName p.1 p.2))

def denormalizeSlice {α : Type} (cfg : StepperCfg α) (m : SliceMap α) : SliceMap α :=
  m.map (fun p => (p.1, cfg.denormName p.1 p.2))

def denormalizeSeries {α : Type} (cfg : StepperCfg α) (d : SeriesMap α) : SeriesMap α :=
  d.map (fun p => (p.1, p.2.map (cfg.denormName p.1)))

/-- Channel-packing of a full time-major mapping
(`out_packer.pack(full_data_norm, channel_dim)`): the ordered channel list;
a missing declared name is the KeyError-equivalent of `_pack`'s dict
access. -/
def packChanT {α : Type} (m : SeriesMap α) : List String → Except PyErr (List (List α))
  | [] => .ok []
  | n :: ns =>
    match alistLookup m n with
    | none => .error (.keyError n)
    | some xs =>
      match packChanT m ns with
      | .ok t => .ok (xs :: t)
      | .error e => .error e

/-- `_pack_data_if_available` (stepper.py lines 456-464): `try: pack`
with `except ValueError: return None`.  Only a ValueError is converted to
`None`; the KeyError-equivalent raised for a missing declared name
propagates (see C8). -/
def packDataIfAvailable {α : Type} (names : List String) (m : SeriesMap α) :
    Except PyErr (Option (List (List α))) :=
  match packChanT m names with
  | .ok t => .ok (some t)
  | .error (.valueError _) => .ok none
  | .error e => .error e

/-- `full_target_tensor_norm.select(dim=time_dim, index=i)`. -/
def selectTimePacked {α : Type} : List (List α) → ℕ → Except PyErr (List α)
  | [], _ => .ok []
  | ch :: rest, idx =>
    match ch[idx]? with
    | none => .error (.indexError "select")
    | some v =>
      match selectTimePacked rest idx with
      | .ok vs => .ok (v :: vs)
      | .error e => .error e

/-- Channel-packing of a per-time slice mapping (`in_packer.pack(...)`). -/
def packChanS {α : Type} (m : SliceMap α) : List String → Except PyErr (List α)
  | [] => .ok []
  | n :: ns =>
    match alistLookup m n with
    | none => .error (.keyError n)
    | some v =>
      match packChanS m ns with
      | .ok vs => .ok (v :: vs)
      | .error e => .error e

/-- Channel-unpacking (`out_packer.unpack(...)`): the dict comprehension
over `enumerate(names)` with `select(channel_dim, i)`. -/
def unpackChanAux {α : Type} (xs : List α) : List String → ℕ → Except PyErr (SliceMap α)
  | [], _ => .ok []
  | n :: ns, i =>
    match xs[i]? with
    | none => .error (.indexError "select")
    | some v =>
      match unpackChanAux xs ns (i + 1) with
      | .ok rest => .ok ((n, v) :: rest)
      | .error e => .error e

def unpackChanS {α : Type} (names : List String) (xs : List α) :
    Except PyErr (SliceMap α) :=
  unpackChanAux xs names 0

/-- `get_name_and_time_query_fn` (stepper.py lines 434-453): query `names`
at one time index, from the normalized (`norm = true`) or denormalized
batch; a missing name is a KeyError from the dict access, an out-of-range
time index is re-raised as ValueError. -/
def getInputData {α : Type} (data dataNorm : SeriesMap α) (t : ℕ) (norm : Bool) :
    List String → Except PyErr (SliceMap α)
  | [] => .ok []
  | n :: ns =>
    match alistLookup (if norm then dataNorm else data) n with
    | none => .error (.keyError n)
    | some xs =>
      match xs[t]? with
      | none =>
        .error (.valueError ("tensor " ++ n ++ " does not have values at t=" ++ toString t))
      | some v =>
        match getInputData data dataNorm t norm ns with
        | .ok rest => .ok ((n, v) :: rest)
        | .error e => .error e

/-- Python `d = a; d.update(b)` — the dict literal with two unpackings,
`b` overriding `a`.  (Iteration order differs from CPython here, but all
downstream consumers look fields up by name.) -/
def dictMerge {α : Type} (a b : SliceMap α) : SliceMap α :=
  a.filter (fun p => ! alistContains b p.1) ++ b

/-- `full_target_tensor_norm.select(time_dim, step+1)` under the
`if full_target_tensor_norm is None` guard (stepper.py lines 532-535). -/
def selectTargetAt {α : Type} (fullTarget : Option (List (List α))) (step : ℕ) :
    Except PyErr (Option (List α)) :=
  match fullTarget with
  | none => .ok none
  | some t =>
    match selectTimePacked t (step + 1) with
    | .ok v => .ok (some v)
    | .error e => .error e

/-- `if corrector is not None: gen_data = corrector(input_data, gen_data)`. -/
def applyCorrector {α : Type}
    (corrector : Option (SliceMap α → SliceMap α → Except PyErr (SliceMap α)))
    (input_data gen_data : SliceMap α) : Except PyErr (SliceMap α) :=
  match corrector with
  | none => .ok gen_data
  | some c => c input_data gen_data

/-- `if ocean is not None: gen_data = ocean(target_data, input_data,
gen_data)` with `target_data = get_input_data(ocean.target_names, step+1,
"denorm")`. -/
def applyOcean {α : Type}
    (ocean : Option (List String × (SliceMap α → SliceMap α → SliceMap α → SliceMap α)))
    (data dataNorm : SeriesMap α) (step : ℕ) (input_data gen_data : SliceMap α) :
    Except PyErr (SliceMap α) :=
  match ocean with
  | none => .ok gen_data
  | some oc =>
    match getInputData data dataNorm (step + 1) false oc.1 with
    | .ok target => .ok (oc.2 target input_data gen_data)
    | .error e => .error e

/-- One iteration of the `for step in ...` loop of `run_on_batch`
(stepper.py lines 529-560): pack the input, select the target at
`step + 1`, run the module, unpack/denormalize, apply the corrector and
the ocean, renormalize, pack (loss is NaN when no target), unpack again,
and splice the next input from forcings (`set(in_names) - gen.keys()`,
whose nondeterministic set order only affects dict order, not lookups)
and the generated fields.  Returns (step loss, generated normalized
fields, next input). -/
def stepOnce {α : Type} (cfg : StepperCfg α) (data dataNorm : SeriesMap α)
    (fullTarget : Option (List (List α))) (step : ℕ) (input_data_norm : SliceMap α) :
    Except PyErr (PyFloat × SliceMap α × SliceMap α) :=
  match packChanS input_data_norm cfg.in_names with
  | .error e => .error e
  | .ok input_tensor_norm =>
    match selectTargetAt fullTarget step with
    | .error e => .error e
    | .ok target_tensor_norm =>
      let gen_tensor_norm := cfg.module input_tensor_norm
      match unpackChanS cfg.out_names gen_tensor_norm with
      | .error e => .error e
      | .ok gen_norm =>
        let gen_data := denormalizeSlice cfg gen_norm
        let input_data := denormalizeSlice cfg input_data_norm
        match applyCorrector cfg.corrector input_data gen_data with
        | .error e => .error e
        | .ok gen_data1 =>
          match applyOcean cfg.ocean data dataNorm step input_data gen_data1 with
          | .error e => .error e
          | .ok gen_data2 =>
            let gen_norm2 := normalizeSlice cfg gen_data2
            match packChanS gen_norm2 cfg.out_names with
            | .error e => .error e
            | .ok gen_tensor_norm2 =>
              let step_loss : PyFloat :=
                match target_tensor_norm with
                | none => none
                | some tt => some (cfg.loss_obj gen_tensor_norm2 tt)
              match unpackChanS cfg.out_names gen_tensor_norm2 with
              | .error e => .error e
              | .ok gen_norm3 =>
                let forcing_names :=
                  cfg.in_names.filter (fun n => ! alistContains gen_norm3 n)
                match getInputData data dataNorm (step + 1) true forcing_names with
                | .error e => .error e
                | .ok forcing_data_norm =>
                  .ok (step_loss, gen_norm3, dictMerge forcing_data_norm gen_norm3)

/-- The loop over `range(n_forward_steps)`, accumulating per-step losses
and the per-step generated normalized fields. -/
def rollLoop {α : Type} (cfg : StepperCfg α) (data dataNorm : SeriesMap α)
    (fullTarget : Option (List (List α))) :
    List ℕ → SliceMap α → Except PyErr (List PyFloat × List (SliceMap α))
  | [], _ => .ok ([], [])
  | s :: rest, inp =>
    match stepOnce cfg data dataNorm fullTarget s inp with
    | .error e => .error e
    | .ok (l, g, next) =>
      match rollLoop cfg data dataNorm fullTarget rest next with
      | .ok (ls, gs) => .ok (l :: ls, g :: gs)
      | .error e => .error e

/-- `[x[name] for x in gen_data_norm]` for one name (the per-time list that
`torch.stack(..., dim=time_dim)` assembles). -/
def collectSeries {α : Type} (n : String) : List (SliceMap α) → Except PyErr (List α)
  | [] => .ok []
  | m :: rest =>
    match alistLookup m n with
    | none => .error (.keyError n)
    | some v =>
      match collectSeries n rest with
      | .ok vs => .ok (v :: vs)
      | .error e => .error e

def stackTimeSeries {α : Type} (ms : List (SliceMap α)) :
    List String → Except PyErr (SeriesMap α)
  | [] => .ok []
  | n :: ns =>
    match collectSeries n ms with
    | .error e => .error e
    | .ok vs =>
      match stackTimeSeries ms ns with
      | .ok rest => .ok ((n, vs) :: rest)
      | .error e => .error e

structure SteppedData (α : Type) where
  metrics : List (String × PyFloat)
  gen_data : SeriesMap α
  target_data : SeriesMap α
  gen_data_norm : SeriesMap α
  target_data_norm : SeriesMap α

/-- `run_on_batch` (stepper.py lines 467-591).  The aggregator recording
and `optimization.step_weights` mutate external collaborators and do not
touch the returned data; tqdm and autocast are no-ops. -/
def runOnBatch {α : Type} (cfg : StepperCfg α) (data : SeriesMap α)
    (n_forward_steps : ℕ) : Except PyErr (SteppedData α) :=
  let full_data_norm := normalizeSeries cfg data
  match packDataIfAvailable cfg.out_names full_data_norm with
  | .error e => .error e
  | .ok full_target_tensor_norm =>
    match getInputData data full_data_norm 0 true cfg.in_names with
    | .error e => .error e
    | .ok input_data_norm =>
      match rollLoop cfg data full_data_norm full_target_tensor_norm
          (List.range n_forward_steps) input_data_norm with
      | .error e => .error e
      | .ok (stepLosses, genList) =>
        match getInputData data full_data_norm 0 true cfg.out_names with
        | .error e => .error e
        | .ok initial =>
          match stackTimeSeries (initial :: genList) cfg.out_names with
          | .error e => .error e
          | .ok gen_data_norm_timeseries =>
            let gen_data := denormalizeSeries cfg gen_data_norm_timeseries
            let cons := cfg.conservation_loss gen_data
            let loss := pyAdd (stepLosses.foldl pyAdd (some 0)) cons.2
            let stepMetrics := ((List.range stepLosses.length).zip stepLosses).map
              (fun p => ("loss_step_" ++ toString p.1, p.2))
            .ok ⟨stepMetrics ++ cons.1 ++ [("loss", loss)], gen_data, data,
              gen_data_norm_timeseries, full_data_norm⟩

/-- The normalized input mapping in effect at the start of step `s`
(`input_data_norm` for `s = 0`, thereafter the spliced mapping built at
the end of the previous iteration). -/
def inputAtStep {α : Type} (cfg : StepperCfg α) (data dataNorm : SeriesMap α)
    (fullTarget : Option (List (List α))) : ℕ → Except PyErr (SliceMap α)
  | 0 => getInputData data dataNorm 0 true cfg.in_names
  | s + 1 =>
    match inputAtStep cfg data dataNorm fullTarget s with
    | .error e => .error e
    | .ok inp =>
      match stepOnce cfg data dataNorm fullTarget s inp with
      | .error e => .error e
      | .ok (_, _, next) => .ok next

/-- The per-step generated normalized output of step `s` (what the loop
appends to `gen_data_norm`). -/
def genAtStep {α : Type} (cfg : StepperCfg α) (data dataNorm : SeriesMap α)
    (fullTarget : Option (List (List α))) (s : ℕ) : Except PyErr (SliceMap α) :=
  match inputAtStep cfg data dataNorm fullTarget s with
  | .error e => .error e
  | .ok inp =>
    match stepOnce cfg data dataNorm fullTarget s inp with
    | .error e => .error e
    | .ok (_, g, _) => .ok g

theorem alistContains_iff_lookup_isSome {β : Type} (m : List (String × β)) (k : String) :
    alistContains m k = true ↔ (alistLookup m k).isSome := by
  induction m with
  | nil => simp [alistContains, alistLookup]
  | cons p rest ih =>
    by_cases hp : p.1 = k
    · simp [alistContains, alistLookup, hp]
    · simp [alistContains, alistLookup, hp, ih]

theorem unpackChanAux_ok_keys {α : Type} (xs : List α) :
    ∀ (ns : List String) (i : ℕ) (m : SliceMap α),
      unpackChanAux xs ns i = .ok m → m.map (·.1) = ns
  | [], _, m, h => by
    simp only [unpackChanAux, Except.ok.injEq] at h
    simp [← h]
  | n :: ns, i, m, h => by
    simp only [unpackChanAux] at h
    cases hx : xs[i]? with
    | none => rw [hx] at h; exact absurd h (by simp)
    | some v =>
      rw [hx] at h
      cases hr : unpackChanAux xs ns (i + 1) with
      | error e => rw [hr] at h; exact absurd h (by simp)
      | ok rest =>
        rw [hr] at h
        simp only [Except.ok.injEq] at h
        subst h
        simp [unpackChanAux_ok_keys xs ns (i + 1) rest hr]

theorem getInputData_lookup {α : Type} (data dataNorm : SeriesMap α) (t : ℕ) (b : Bool) :
    ∀ (names : List String) (r : SliceMap α),
      getInputData data dataNorm t b names = .ok r →
      ∀ n ∈ names, alistLookup r n
          = (alistLookup (if b then dataNorm else data) n).bind (fun xs => xs[t]?) ∧
        (alistLookup r n).isSome
  | [], _, _, _, hn => by simp at hn
  | n' :: ns, r, h, n, hn => by
    simp only [getInputData] at h
    cases hl : alistLookup (if b then dataNorm else data) n' with
    | none => simp [hl] at h
    | some xs =>
      simp only [hl] at h
      cases hx : xs[t]? with
      | none => simp [hx] at h
      | some v =>
        simp only [hx] at h
        cases hr : getInputData data dataNorm t b ns with
        | error e => simp [hr] at h
        | ok rest =>
          simp only [hr] at h
          simp only [Except.ok.injEq] at h
          subst h
          by_cases hnn : n' = n
          · subst hnn
            simp [alistLookup, hl, hx]
          · simp only [alistLookup, hnn, if_false]
            rcases List.mem_cons.mp hn with hn' | hn'
            · exact absurd hn'.symm hnn
            · exact getInputData_lookup data dataNorm t b ns rest hr n hn'

theorem alistLookup_append {β : Type} (a b : List (String × β)) (n : String) :
    alistLookup (a ++ b) n
      = match alistLookup a n with
        | some v => some v
        | none => alistLookup b n := by
  induction a with
  | nil => simp [alistLookup]
  | cons p rest ih =>
    by_cases hp : p.1 = n
    · simp [alistLookup, hp]
    · simp [alistLookup, hp, ih]

theorem alistLookup_filter_key_true {β : Type} (p : String × β → Bool) (n : String)
    (hp : ∀ v, p (n, v) = true) :
    ∀ a : List (String × β), alistLookup (a.filter p) n = alistLookup a n
  | [] => rfl
  | (k, v) :: rest => by
    by_cases hk : k = n
    · simp [List.filter, hk, hp v, alistLookup, alistLookup_filter_key_true p n hp rest]
    · by_cases hpv : p (k, v) = true
      · simp [List.filter, hpv, alistLookup, hk,
          alistLookup_filter_key_true p n hp rest]
      · simp only [List.filter, Bool.not_eq_true] at hpv ⊢
        rw [hpv]
        simp [alistLookup, hk, alistLookup_filter_key_true p n hp rest]

theorem alistLookup_filter_key_false {β : Type} (p : String × β → Bool) (n : String)
    (hp : ∀ v, p (n, v) = false) :
    ∀ a : List (String × β), alistLookup (a.filter p) n = none
  | [] => rfl
  | (k, v) :: rest => by
    by_cases hk : k = n
    · simp [List.filter, hk, hp v, alistLookup_filter_key_false p n hp rest]
    · by_cases hpv : p (k, v) = true
      · simp [List.filter, hpv, alistLookup, hk,
          alistLookup_filter_key_false p n hp rest]
      · simp only [List.filter, Bool.not_eq_true] at hpv ⊢
        rw [hpv]
        simp [alistLookup_filter_key_false p n hp rest]

theorem dictMerge_lookup_inb {α : Type} (a b : SliceMap α) (n : String)
    (hb : alistContains b n = true) :
    alistLookup (dictMerge a b) n = alistLookup b n := by
  unfold dictMerge
  rw [alistLookup_append,
    alistLookup_filter_key_false (fun p => ! alistContains b p.1) n (fun v => by simp [hb])]

theorem dictMerge_lookup_notb {α : Type} (a b : SliceMap α) (n : String)
    (hb : alistContains b n = false) :
    alistLookup (dictMerge a b) n = alistLookup a n := by
  unfold dictMerge
  rw [alistLookup_append,
    alistLookup_filter_key_true (fun p => ! alistContains b p.1) n (fun v => by simp [hb])]
  cases hl : alistLookup a n with
  | some v => rfl
  | none =>
    simp only []
    cases hlb : alistLookup b n with
    | none => rfl
    | some v =>
      exact absurd ((alistContains_iff_lookup_isSome b n).mpr (by simp [hlb]))
        (by simp [hb])

theorem collectSeries_ok {α : Type} (n : String) :
    ∀ (ms : List (SliceMap α)) (vs : List α), collectSeries n ms = .ok vs →
      vs.length = ms.length ∧ ∀ (j : ℕ) (m : SliceMap α), ms[j]? = some m →
        vs[j]? = alistLookup m n
  | [], vs, h => by
    simp only [collectSeries, Except.ok.injEq] at h
    subst h
    exact ⟨rfl, by simp⟩
  | m :: rest, vs, h => by
    simp only [collectSeries] at h
    cases hl : alistLookup m n with
    | none => rw [hl] at h; exact absurd h (by simp)
    | some v =>
      rw [hl] at h
      cases hr : collectSeries n rest with
      | error e => rw [hr] at h; exact absurd h (by simp)
      | ok vs' =>
        rw [hr] at h
        simp only [Except.ok.injEq] at h
        subst h
        obtain ⟨hlen, hj⟩ := collectSeries_ok n rest vs' hr
        refine ⟨by simp [hlen], ?_⟩
        intro j m' hm
        cases j with
        | zero =>
          simp at hm
          simp [← hm, hl]
        | succ j' =>
          simp only [List.getElem?_cons_succ] at hm ⊢
          exact hj j' m' hm

theorem stackTimeSeries_ok {α : Type} (ms : List (SliceMap α)) :
    ∀ (names : List String) (sm : SeriesMap α), stackTimeSeries ms names = .ok sm →
      ∀ n ∈ names, ∃ vs, alistLookup sm n = some vs ∧ collectSeries n ms = .ok vs
  | [], _, _, n, hn => by simp at hn
  | n' :: ns, sm, h, n, hn => by
    simp only [stackTimeSeries] at h
    cases hc : collectSeries n' ms with
    | error e => rw [hc] at h; exact absurd h (by simp)
    | ok vs =>
      rw [hc] at h
      cases hr : stackTimeSeries ms ns with
      | error e => rw [hr] at h; exact absurd h (by simp)
      | ok rest =>
        rw [hr] at h
        simp only [Except.ok.injEq] at h
        subst h
        by_cases hnn : n' = n
        · subst hnn
          exact ⟨vs, by simp [alistLookup], hc⟩
        · simp only [alistLookup, hnn, if_false]
          rcases List.mem_cons.mp hn with hn' | hn'
          · exact absurd hn'.symm hnn
          · exact stackTimeSeries_ok ms ns rest hr n hn'

theorem denormalizeSeries_lookup {α : Type} (cfg : StepperCfg α) (d : SeriesMap α)
    (n : String) :
    alistLookup (denormalizeSeries cfg d) n
      = (alistLookup d n).map (fun xs => xs.map (cfg.denormName n)) := by
  induction d with
  | nil => simp [denormalizeSeries, alistLookup]
  | cons p rest ih =>
    by_cases hp : p.1 = n
    · simp [denormalizeSeries, alistLookup, hp]
    · simpa [denormalizeSeries, alistLookup, hp] using ih

/-- Inverting a successful step: the generated normalized mapping has
exactly the declared out-names as keys, and the next input is the merge of
the time-`step+1` forcing query (over the in-names not generated) with the
generated mapping. -/
theorem stepOnce_ok_inv {α : Type} (cfg : StepperCfg α) (data dataNorm : SeriesMap α)
    (fullTarget : Option (List (List α))) (step : ℕ) (inp : SliceMap α)
    (l : PyFloat) (g next : SliceMap α)
    (h : stepOnce cfg data dataNorm fullTarget step inp = .ok (l, g, next)) :
    g.map (·.1) = cfg.out_names ∧
    ∃ forcing, getInputData data dataNorm (step + 1) true
        (cfg.in_names.filter (fun n => ! alistContains g n)) = .ok forcing ∧
      next = dictMerge forcing g := by
  unfold stepOnce at h
  cases h1 : packChanS inp cfg.in_names with
  | error e => simp [h1] at h
  | ok input_tensor_norm =>
    simp only [h1] at h
    cases h2 : selectTargetAt fullTarget step with
    | error e => simp [h2] at h
    | ok target_tensor_norm =>
      simp only [h2] at h
      cases h3 : unpackChanS cfg.out_names (cfg.module input_tensor_norm) with
      | error e => simp [h3] at h
      | ok gen_norm =>
        simp only [h3] at h
        cases h4 : applyCorrector cfg.corrector (denormalizeSlice cfg inp)
            (denormalizeSlice cfg gen_norm) with
        | error e => simp [h4] at h
        | ok gen_data1 =>
          simp only [h4] at h
          cases h5 : applyOcean cfg.ocean data dataNorm step (denormalizeSlice cfg inp)
              gen_data1 with
          | error e => simp [h5] at h
          | ok gen_data2 =>
            simp only [h5] at h
            cases h6 : packChanS (normalizeSlice cfg gen_data2) cfg.out_names with
            | error e => simp [h6] at h
            | ok gen_tensor_norm2 =>
              simp only [h6] at h
              cases h7 : unpackChanS cfg.out_names gen_tensor_norm2 with
              | error e => simp [h7] at h
              | ok gen_norm3 =>
                simp only [h7] at h
                cases h8 : getInputData data dataNorm (step + 1) true
                    (cfg.in_names.filter (fun n => ! alistContains gen_norm3 n)) with
                | error e => simp [h8] at h
                | ok forcing =>
                  simp only [h8] at h
                  simp only [Except.ok.injEq, Prod.mk.injEq] at h
                  obtain ⟨-, hg, hnext⟩ := h
                  subst hg
                  refine ⟨unpackChanAux_ok_keys _ _ _ _ h7, forcing, h8, hnext.symm⟩

/-- Loop/trace correspondence: if the loop runs to completion from the
input of step `s`, every intermediate input and per-step output agrees
with the `inputAtStep` / `genAtStep` trace. -/
theorem rollLoop_chain {α : Type} (cfg : StepperCfg α) (data dataNorm : SeriesMap α)
    (fullTarget : Option (List (List α))) :
    ∀ (m s : ℕ) (inp : SliceMap α) (ls : List PyFloat) (gs : List (SliceMap α)),
      inputAtStep cfg data dataNorm fullTarget s = .ok inp →
      rollLoop cfg data dataNorm fullTarget (List.range' s m) inp = .ok (ls, gs) →
      gs.length = m ∧
      (∀ j, j ≤ m → ∃ inp', inputAtStep cfg data dataNorm fullTarget (s + j) = .ok inp') ∧
      (∀ j, j < m → ∃ g, genAtStep cfg data dataNorm fullTarget (s + j) = .ok g ∧
        gs[j]? = some g)
  | 0, s, inp, ls, gs, hin, hroll => by
    simp only [List.range', rollLoop, Except.ok.injEq, Prod.mk.injEq] at hroll
    obtain ⟨-, hgs⟩ := hroll
    subst hgs
    refine ⟨rfl, ?_, ?_⟩
    · intro j hj
      interval_cases j
      exact ⟨inp, hin⟩
    · intro j hj
      omega
  | m + 1, s, inp, ls, gs, hin, hroll => by
    simp only [List.range'] at hroll
    simp only [rollLoop] at hroll
    cases hstep : stepOnce cfg data dataNorm fullTarget s inp with
    | error e => simp [hstep] at hroll
    | ok r =>
      obtain ⟨l, g, next⟩ := r
      simp only [hstep] at hroll
      cases hrest : rollLoop cfg data dataNorm fullTarget (List.range' (s + 1) m) next with
      | error e => simp [hrest] at hroll
      | ok p =>
        obtain ⟨ls', gs'⟩ := p
        simp only [hrest, Except.ok.injEq, Prod.mk.injEq] at hroll
        obtain ⟨-, hgs⟩ := hroll
        subst hgs
        have hin1 : inputAtStep cfg data dataNorm fullTarget (s + 1) = .ok next := by
          simp only [inputAtStep, hin, hstep]
        have hgen : genAtStep cfg data dataNorm fullTarget s = .ok g := by
          simp only [genAtStep, hin, hstep]
        obtain ⟨hlen, hinp, hgs⟩ := rollLoop_chain cfg data dataNorm fullTarget m (s + 1)
          next ls' gs' hin1 hrest
        refine ⟨by simp [hlen], ?_, ?_⟩
        · intro j hj
          cases j with
          | zero => exact ⟨inp, by simpa using hin⟩
          | succ j' =>
            obtain ⟨inp', hinp'⟩ := hinp j' (by omega)
            exact ⟨inp', by rw [show s + (j' + 1) = s + 1 + j' by omega]; exact hinp'⟩
        · intro j hj
          cases j with
          | zero => exact ⟨g, by simpa using hgen, by simp⟩
          | succ j' =>
            obtain ⟨g', hg', hgs'⟩ := hgs j' (by omega)
            refine ⟨g', ?_, by simpa using hgs'⟩
            rw [show s + (j' + 1) = s + 1 + j' by omega]
            exact hg'

theorem alistContains_iff_mem_keys {β : Type} (m : List (String × β)) (k : String) :
    alistContains m k = true ↔ k ∈ m.map (·.1) := by
  induction m with
  | nil => simp [alistContains]
  | cons p rest ih =>
    by_cases hp : p.1 = k
    · simp [alistContains, hp]
    · simp [alistContains, hp, ih, Ne.symm hp]

theorem genAtStep_ok_inv {α : Type} (cfg : StepperCfg α) (data dataNorm : SeriesMap α)
    (fullTarget : Option (List (List α))) (s : ℕ) (g : SliceMap α)
    (h : genAtStep cfg data dataNorm fullTarget s = .ok g) :
    ∃ inp l next, inputAtStep cfg data dataNorm fullTarget s = .ok inp ∧
      stepOnce cfg data dataNorm fullTarget s inp = .ok (l, g, next) := by
  unfold genAtStep at h
  cases hin : inputAtStep cfg data dataNorm fullTarget s with
  | error e => simp [hin] at h
  | ok inp =>
    simp only [hin] at h
    cases hstep : stepOnce cfg data dataNorm fullTarget s inp with
    | error e => simp [hstep] at h
    | ok r =>
      obtain ⟨l, g', next⟩ := r
      simp only [hstep, Except.ok.injEq] at h
      subst h
      exact ⟨inp, l, next, rfl, hstep⟩

theorem runOnBatch_ok_inv {α : Type} (cfg : StepperCfg α) (data : SeriesMap α)
    (k : ℕ) (sd : SteppedData α) (h : runOnBatch cfg data k = .ok sd) :
    ∃ ft input0 stepLosses genList initial ts,
      packDataIfAvailable cfg.out_names (normalizeSeries cfg data) = .ok ft ∧
      getInputData data (normalizeSeries cfg data) 0 true cfg.in_names = .ok input0 ∧
      rollLoop cfg data (normalizeSeries cfg data) ft (List.range k) input0
        = .ok (stepLosses, genList) ∧
      getInputData data (normalizeSeries cfg data) 0 true cfg.out_names = .ok initial ∧
      stackTimeSeries (initial :: genList) cfg.out_names = .ok ts ∧
      sd.gen_data_norm = ts ∧
      sd.gen_data = denormalizeSeries cfg ts := by
  unfold runOnBatch at h
  cases h1 : packDataIfAvailable cfg.out_names (normalizeSeries cfg data) with
  | error e => simp [h1] at h
  | ok ft =>
    simp only [h1] at h
    cases h2 : getInputData data (normalizeSeries cfg data) 0 true cfg.in_names with
    | error e => simp [h2] at h
    | ok input0 =>
      simp only [h2] at h
      cases h3 : rollLoop cfg data (normalizeSeries cfg data) ft (List.range k) input0 with
      | error e => simp [h3] at h
      | ok p =>
        obtain ⟨stepLosses, genList⟩ := p
        simp only [h3] at h
        cases h4 : getInputData data (normalizeSeries cfg data) 0 true cfg.out_names with
        | error e => simp [h4] at h
        | ok initial =>
          simp only [h4] at h
          cases h5 : stackTimeSeries (initial :: genList) cfg.out_names with
          | error e => simp [h5] at h
          | ok ts =>
            simp only [h5, Except.ok.injEq] at h
            refine ⟨ft, input0, stepLosses, genList, initial, ts, rfl, rfl, h3, rfl, h5,
              ?_, ?_⟩
            · rw [← h]
            · rw [← h]

/-- C7 (main result): for `n_forward_steps = k`, the generated normalized
timeseries has exactly `k + 1` time entries per out-name; entry 0 is the
true normalized value at time 0, entries `1..k` are the per-step generated
outputs in step order, and the denormalized series is its per-name
denormalization. -/
theorem C7_rollout_length {α : Type} (cfg : StepperCfg α) (data : SeriesMap α)
    (k : ℕ) (sd : SteppedData α) (h : runOnBatch cfg data k = .ok sd)
    (n : String) (hn : n ∈ cfg.out_names) :
    ∃ (ft : Option (List (List α))) (ts : List α),
      packDataIfAvailable cfg.out_names (normalizeSeries cfg data) = .ok ft ∧
      alistLookup sd.gen_data_norm n = some ts ∧
      ts.length = k + 1 ∧
      ts[0]? = (alistLookup (normalizeSeries cfg data) n).bind (fun xs => xs[0]?) ∧
      (ts[0]?).isSome = true ∧
      (∀ j, j < k → ∃ g, genAtStep cfg data (normalizeSeries cfg data) ft j = .ok g ∧
        ts[j + 1]? = alistLookup g n ∧ (ts[j + 1]?).isSome = true) ∧
      alistLookup sd.gen_data n = some (ts.map (cfg.denormName n)) := by
  obtain ⟨ft, input0, stepLosses, genList, initial, tsm, hft, hi0, hroll, hinit, hstack,
    hgdn, hgd⟩ := runOnBatch_ok_inv cfg data k sd h
  obtain ⟨vs, hvs, hcoll⟩ := stackTimeSeries_ok (initial :: genList) cfg.out_names tsm
    hstack n hn
  obtain ⟨hvlen, hvj⟩ := collectSeries_ok n (initial :: genList) vs hcoll
  have hin0 : inputAtStep cfg data (normalizeSeries cfg data) ft 0 = .ok input0 := hi0
  rw [List.range_eq_range'] at hroll
  obtain ⟨hglen, -, hgen⟩ := rollLoop_chain cfg data (normalizeSeries cfg data) ft k 0
    input0 stepLosses genList hin0 hroll
  refine ⟨ft, vs, hft, by rw [hgdn]; exact hvs, by simp at hvlen; omega, ?_, ?_, ?_, ?_⟩
  · have h0 := hvj 0 initial (by simp)
    rw [h0]
    exact (getInputData_lookup data (normalizeSeries cfg data) 0 true cfg.out_names
      initial hinit n hn).1
  · have h0 := hvj 0 initial (by simp)
    rw [h0]
    exact (getInputData_lookup data (normalizeSeries cfg data) 0 true cfg.out_names
      initial hinit n hn).2
  · intro j hj
    obtain ⟨g, hg, hgj⟩ := hgen j (by simpa using hj)
    have hgx : genAtStep cfg data (normalizeSeries cfg data) ft j = .ok g := by
      simpa using hg
    have hj1 := hvj (j + 1) g (by simpa using hgj)
    refine ⟨g, hgx, hj1, ?_⟩
    rw [hj1]
    obtain ⟨inp, l, next, -, hstep⟩ := genAtStep_ok_inv cfg data
      (normalizeSeries cfg data) ft j g hgx
    obtain ⟨hkeys, -⟩ := stepOnce_ok_inv cfg data (normalizeSeries cfg data) ft j inp
      l g next hstep
    have hc : alistContains g n = true :=
      (alistContains_iff_mem_keys g n).mpr (hkeys ▸ hn)
    rw [alistContains_iff_lookup_isSome] at hc
    exact hc
  · rw [hgd, denormalizeSeries_lookup, hvs]
    rfl

/-- C6 (main result): in the rollout, the input mapping used for step
`s + 1` takes every in-name that is not an out-name (a forcing field) from
the true batch's normalized series at time `s + 1`, and every in-name that
is an out-name from the step-`s` generated (corrected / prescribed /
renormalized) output. -/
theorem C6_forcing_fields {α : Type} (cfg : StepperCfg α) (data : SeriesMap α)
    (k : ℕ) (sd : SteppedData α) (h : runOnBatch cfg data k = .ok sd)
    (s : ℕ) (hs : s < k) (n : String) (hn : n ∈ cfg.in_names) :
    ∃ (ft : Option (List (List α))) (inp : SliceMap α),
      packDataIfAvailable cfg.out_names (normalizeSeries cfg data) = .ok ft ∧
      inputAtStep cfg data (normalizeSeries cfg data) ft (s + 1) = .ok inp ∧
      (n ∉ cfg.out_names →
        alistLookup inp n
            = (alistLookup (normalizeSeries cfg data) n).bind (fun xs => xs[s + 1]?) ∧
          (alistLookup inp n).isSome = true) ∧
      (n ∈ cfg.out_names →
        ∃ g, genAtStep cfg data (normalizeSeries cfg data) ft s = .ok g ∧
          alistLookup inp n = alistLookup g n ∧ (alistLookup g n).isSome = true) := by
  obtain ⟨ft, input0, stepLosses, genList, initial, tsm, hft, hi0, hroll, -, -, -, -⟩ :=
    runOnBatch_ok_inv cfg data k sd h
  have hin0 : inputAtStep cfg data (normalizeSeries cfg data) ft 0 = .ok input0 := hi0
  rw [List.range_eq_range'] at hroll
  obtain ⟨-, hinp, hgen⟩ := rollLoop_chain cfg data (normalizeSeries cfg data) ft k 0
    input0 stepLosses genList hin0 hroll
  obtain ⟨g, hg, -⟩ := hgen s (by omega)
  have hgx : genAtStep cfg data (normalizeSeries cfg data) ft s = .ok g := by
    simpa using hg
  obtain ⟨inpS, l, next, hinpS, hstep⟩ := genAtStep_ok_inv cfg data
    (normalizeSeries cfg data) ft s g hgx
  have hnext : inputAtStep cfg data (normalizeSeries cfg data) ft (s + 1) = .ok next := by
    simp only [inputAtStep, hinpS, hstep]
  obtain ⟨hkeys, forcing, hforcing, hmerge⟩ := stepOnce_ok_inv cfg data
    (normalizeSeries cfg data) ft s inpS l g next hstep
  refine ⟨ft, next, hft, hnext, ?_, ?_⟩
  · intro hno
    have hcg : alistContains g n = false := by
      cases hc : alistContains g n with
      | false => rfl
      | true =>
        exact absurd (hkeys ▸ (alistContains_iff_mem_keys g n).mp hc) hno
    have hnf : n ∈ cfg.in_names.filter (fun m => ! alistContains g m) := by
      rw [List.mem_filter]
      exact ⟨hn, by simp [hcg]⟩
    rw [hmerge, dictMerge_lookup_notb forcing g n hcg]
    exact getInputData_lookup data (normalizeSeries cfg data) (s + 1) true _
      forcing hforcing n hnf
  · intro hyes
    have hcg : alistContains g n = true :=
      (alistContains_iff_mem_keys g n).mpr (hkeys ▸ hyes)
    refine ⟨g, hgx, ?_, ?_⟩
    · rw [hmerge, dictMerge_lookup_inb forcing g n hcg]
    · rw [← alistContains_iff_lookup_isSome]
      exact hcg

def c67Cfg : StepperCfg ℚ :=
  ⟨["F", "T"], ["T"], fun _ => [5], fun _ x => x, fun _ x => x, none, none,
    fun _ _ => 0, fun _ => ([], some 0)⟩

def c67Data : SeriesMap ℚ := [("F", [10, 11, 12]), ("T", [20, 21, 22])]

def c67Sd : SteppedData ℚ :=
  ⟨[("loss_step_0", some 0), ("loss_step_1", some 0), ("loss", some 0)],
    [("T", [20, 5, 5])], c67Data, [("T", [20, 5, 5])], c67Data⟩

theorem c67_run : runOnBatch c67Cfg c67Data 2 = .ok c67Sd := by
  with_unfolding_all rfl

/-- C6 witness: a two-step rollout with forcing name `F` and predicted
name `T`. -/
theorem C6_witness :
    ∃ (ft : Option (List (List ℚ))) (inp : SliceMap ℚ),
      packDataIfAvailable c67Cfg.out_names (normalizeSeries c67Cfg c67Data) = .ok ft ∧
      inputAtStep c67Cfg c67Data (normalizeSeries c67Cfg c67Data) ft (0 + 1) = .ok inp ∧
      ("F" ∉ c67Cfg.out_names →
        alistLookup inp "F"
            = (alistLookup (normalizeSeries c67Cfg c67Data) "F").bind (fun xs => xs[0 + 1]?) ∧
          (alistLookup inp "F").isSome = true) ∧
      ("F" ∈ c67Cfg.out_names →
        ∃ g, genAtStep c67Cfg c67Data (normalizeSeries c67Cfg c67Data) ft 0 = .ok g ∧
          alistLookup inp "F" = alistLookup g "F" ∧ (alistLookup g "F").isSome = true) :=
  C6_forcing_fields c67Cfg c67Data 2 c67Sd c67_run 0 (by norm_num) "F"
    (by simp [c67Cfg])

/-- C7 witness: the same two-step rollout has a 3-entry generated series
for `T`, starting from the true time-0 value. -/
theorem C7_witness :
    ∃ (ft : Option (List (List ℚ))) (ts : List ℚ),
      packDataIfAvailable c67Cfg.out_names (normalizeSeries c67Cfg c67Data) = .ok ft ∧
      alistLookup c67Sd.gen_data_norm "T" = some ts ∧
      ts.length = 2 + 1 ∧
      ts[0]? = (alistLookup (normalizeSeries c67Cfg c67Data) "T").bind (fun xs => xs[0]?) ∧
      (ts[0]?).isSome = true ∧
      (∀ j, j < 2 → ∃ g,
        genAtStep c67Cfg c67Data (normalizeSeries c67Cfg c67Data) ft j = .ok g ∧
        ts[j + 1]? = alistLookup g "T" ∧ (ts[j + 1]?).isSome = true) ∧
      alistLookup c67Sd.gen_data "T" = some (ts.map (c67Cfg.denormName "T")) :=
  C7_rollout_length c67Cfg c67Data 2 c67Sd c67_run "T" (by simp [c67Cfg])

/-! ## C8: a missing out-name aborts the rollout instead of giving NaN loss

`_pack_data_if_available` converts only `ValueError` to `None`
(stepper.py line 463), but `_pack`'s failure on an absent declared name is
the dict access's `KeyError` (whether raised directly or surfaced through
TorchScript it is not a `ValueError`), so it propagates and `run_on_batch`
aborts before its loop — the NaN-loss path for a missing target is
unreachable by a missing out-name. -/

def c8Cfg : StepperCfg ℚ :=
  ⟨["F"], ["T"], fun xs => xs, fun _ x => x, fun _ x => x, none, none,
    fun _ _ => 0, fun _ => ([], some 0)⟩

def c8Data : SeriesMap ℚ := [("F", [0, 0])]

/-- C8 (code evaluated at the failing input): a batch with the declared
out-name `T` absent makes `run_on_batch` abort with the propagated
`KeyError("T")`, instead of completing with NaN step losses. -/
theorem C8_missing_target_aborts :
    runOnBatch c8Cfg c8Data 1 = .error (.keyError "T") := by
  with_unfolding_all rfl

end SphericalDyffusion
